import Mathlib

/-! # Uninstall orchestration of `cilium-cli/install/uninstall.go`

A shallow embedding of `K8sUninstaller` (test-namespace reaping, release
uninstall, node annotation cleanup, aws-node DaemonSet rollback) together with
the properties of its JSON-Pointer escaping and of its failure policy.

Go strings are modelled as lists of characters.  The characters the code
replaces (`~` and `/`) are ASCII, so the byte-level and the character-level
reading of `strings.ReplaceAll` agree.
-/

namespace Uninstall

/-! ## Strings -/

/-- Go `string`. -/
abbrev GoString := List Char

/-- Go `strings.HasPrefix(s, p)`. -/
def HasPrefix (s p : GoString) : Bool := p.isPrefixOf s

/-- Scan of `strings.Replace` for a non-empty `old`: `skip` counts the
characters of the current occurrence of `old` still to be dropped; with
`skip = 0` the leftmost occurrence starting at the current position is replaced
by `new` and the scan resumes after it (occurrences do not overlap). -/
def replaceScan (old new : GoString) : Nat → GoString → GoString
  | _, [] => []
  | skip + 1, _ :: cs => replaceScan old new skip cs
  | 0, c :: cs =>
    if old.isPrefixOf (c :: cs) then new ++ replaceScan old new (old.length - 1) cs
    else c :: replaceScan old new 0 cs

/-- Go `strings.ReplaceAll(s, old, new)`: every non-overlapping occurrence of `old`
in `s` replaced by `new`; an empty `old` matches before every character and at
the end of the string. -/
def ReplaceAll (s old new : GoString) : GoString :=
  match old with
  | [] => new ++ s.flatMap (fun c => c :: new)
  | _ :: _ => replaceScan old new 0 s

/-- Escaping of an annotation key in `cleanupNodeAnnotations` (lines 98-99):
`~` to `~0` first, then `/` to `~1`. -/
def escapeKey (key : GoString) : GoString :=
  ReplaceAll (ReplaceAll key "~".toList "~0".toList) "/".toList "~1".toList

/-- Character-by-character JSON-Pointer encoding: `~` becomes `~0`, `/` becomes
`~1`, any other character is copied. -/
def encodeChar (c : Char) : GoString :=
  if c = '~' then ['~', '0'] else if c = '/' then ['~', '1'] else [c]

/-- Encoding of a whole key, one character at a time, in position. -/
def encodeKey (key : GoString) : GoString := key.flatMap encodeChar

/-! ## Errors, maps, nodes and patches -/

/-- Go `error` value: an error handed back by a collaborator, or one built by
`fmt.Errorf` with a `%w` verb around an inner error. -/
inductive GoError where
  | base (msg : GoString)
  | wrapf (format : String) (args : List GoString) (inner : GoError)
  deriving DecidableEq, Repr

/-- Go `map[string]string`: an association list whose keys are pairwise
distinct. -/
structure GoMap where
  entries : List (GoString × GoString)
  nodup : (entries.map Prod.fst).Nodup
  deriving DecidableEq

namespace GoMap

/-- Go `make(map[string]string)`. -/
def make : GoMap := ⟨[], List.nodup_nil⟩

/-- The keys of the map, in storage order. -/
def keys (m : GoMap) : List GoString := m.entries.map Prod.fst

/-- Go `len(m)`. -/
def len (m : GoMap) : Nat := m.entries.length

/-- Go `m[key]`: the stored value, or the zero value `""` when absent. -/
def index (m : GoMap) (key : GoString) : GoString :=
  match m.entries.lookup key with
  | some v => v
  | none => []

/-- Go `m[key] = v`: any previous binding of `key` is replaced. -/
def set (m : GoMap) (key v : GoString) : GoMap :=
  ⟨(key, v) :: m.entries.filter (fun e => decide (e.1 ≠ key)), by
    rw [List.map_cons, List.nodup_cons]
    constructor
    · intro h
      rcases List.mem_map.1 h with ⟨e, he, hk⟩
      have := (List.mem_filter.1 he).2
      simp [hk] at this
    · exact (m.nodup.sublist (List.Sublist.map _ (List.filter_sublist _)))⟩

end GoMap

/-- Kubernetes `Node`, reduced to the fields the uninstaller reads. -/
structure Node where
  Name : GoString
  Annotations : GoMap
  deriving DecidableEq

/-- Modelled from the spec: the `pkgk8s.JSONPatch` struct, whose declaration is
not part of the sources at hand: operation kind, path and an optional value. -/
structure JSONPatch where
  OP : GoString
  Path : GoString
  Value : Option GoString := none
  deriving DecidableEq, Repr

/-- Fields of `UninstallParameters` (the `Writer` is the log part of the
trace). -/
structure UninstallParameters where
  Namespace : GoString
  TestNamespace : GoString
  Wait : Bool
  HelmValuesSecretName : GoString
  RedactHelmCertKeys : Bool
  HelmChartDirectory : GoString
  WorkerCount : Int
  Timeout : Int
  HelmReleaseName : GoString

/-- Fields of helm's `action.Uninstall` that `UninstallWithHelm` sets. -/
structure HelmUninstall where
  Wait : Bool
  DeletionPropagation : GoString
  Timeout : Int
  deriving DecidableEq, Repr

/-- Helm `action.NewUninstall(actionConfig)`: all option fields at their zero value. -/
def NewUninstall : HelmUninstall := ⟨false, [], 0⟩

/-! ## The cluster, the trace and the environment -/

/-- Argument printed by a log line. -/
inductive LogArg where
  | str (s : GoString)
  | err (e : GoError)
  deriving DecidableEq

/-- Equality of results is decidable. -/
instance instDecidableEqResult {ε α : Type} [DecidableEq ε] [DecidableEq α] :
    DecidableEq (Except ε α) := fun a b =>
  match a, b with
  | Except.error x, Except.error y =>
    if h : x = y then isTrue (by rw [h]) else isFalse (fun e => h (by cases e; rfl))
  | Except.ok x, Except.ok y =>
    if h : x = y then isTrue (by rw [h]) else isFalse (fun e => h (by cases e; rfl))
  | Except.error _, Except.ok _ => isFalse (fun e => by cases e)
  | Except.ok _, Except.error _ => isFalse (fun e => by cases e)

/-- Observable actions of a run, each call with the result it returned. -/
inductive Event where
  | log (format : String) (args : List LogArg)
  | deletePodCollection (ns : GoString) (res : Option GoError)
  | deleteNamespace (ns : GoString) (res : Option GoError)
  | getNamespace (ns : GoString) (res : Option GoError)
  | sleep (d : Nat)
  | helmRun (client : HelmUninstall) (release : GoString) (res : Option GoError)
  | listNodes (res : Except GoError (List Node))
  | patchNode (name : GoString) (patch : GoString) (res : Option GoError)
  | getDaemonSet (ns name : GoString) (res : Option GoError)
  | patchDaemonSet (ns name : GoString) (patch : GoString) (res : Option GoError)
  deriving DecidableEq

/-- The methods of `k8sInstallerImplementation` used by the uninstaller, as
transitions of a cluster state `σ`; `none` is a nil error. -/
structure Client (σ : Type) where
  DeletePodCollection : σ → GoString → Option GoError × σ
  DeleteNamespace : σ → GoString → Option GoError × σ
  GetNamespace : σ → GoString → Option GoError × σ
  ListNodes : σ → Except GoError (List Node) × σ
  PatchNode : σ → GoString → GoString → Option GoError × σ
  GetDaemonSet : σ → GoString → GoString → Option GoError × σ
  PatchDaemonSet : σ → GoString → GoString → GoString → Option GoError × σ

/-- Iteration orders of `range` over a map: the `n`-th `range` statement of a
run visits the keys in the order `order n keys`, some permutation of them. -/
structure RangeOrder where
  order : Nat → List GoString → List GoString
  perm : ∀ n l, (order n l).Perm l

/-- What the uninstaller takes from outside `uninstall.go`: the release
manager, `json.Marshal`, the runtime's map iteration order and the constants
declared in other files. -/
structure Env (σ : Type) where
  helmRun : σ → HelmUninstall → GoString → Option GoError × σ
  jsonMarshal : List JSONPatch → Except GoError GoString
  rangeOrder : RangeOrder
  WaitRetryInterval : Nat
  AwsNodeDaemonSetNamespace : GoString
  AwsNodeDaemonSetName : GoString
  AwsNodeDaemonSetNodeSelectorKey : GoString

/-- The struct `K8sUninstaller`. -/
structure K8sUninstaller (σ : Type) where
  client : Client σ
  params : UninstallParameters

/-- State of a run: the cluster, the events so far (oldest first) and the
number of `range` statements executed so far. -/
structure World (σ : Type) where
  cluster : σ
  trace : List Event
  ranges : Nat
  deriving DecidableEq

variable {σ : Type}

/-- Append one event to the trace. -/
def World.emit (w : World σ) (e : Event) : World σ :=
  { w with trace := w.trace ++ [e] }

/-- The method `k.Log(format, args...)`: one line on the writer. -/
def World.log (w : World σ) (format : String) (args : List LogArg) : World σ :=
  w.emit (Event.log format args)

/-- The events of `w2` that came after those of `w1`. -/
def events (w1 w2 : World σ) : List Event := w2.trace.drop w1.trace.length

/-- One `range` over the keys of `m`. -/
def rangeKeys (env : Env σ) (w : World σ) (m : GoMap) : List GoString × World σ :=
  (env.rangeOrder.order w.ranges m.keys, { w with ranges := w.ranges + 1 })

/-! ## Calls to the collaborators, each recorded in the trace -/

def callDeletePodCollection (k : K8sUninstaller σ) (w : World σ) (ns : GoString) :
    Option GoError × World σ :=
  let r := k.client.DeletePodCollection w.cluster ns
  (r.1, { w with cluster := r.2, trace := w.trace ++ [Event.deletePodCollection ns r.1] })

def callDeleteNamespace (k : K8sUninstaller σ) (w : World σ) (ns : GoString) :
    Option GoError × World σ :=
  let r := k.client.DeleteNamespace w.cluster ns
  (r.1, { w with cluster := r.2, trace := w.trace ++ [Event.deleteNamespace ns r.1] })

def callGetNamespace (k : K8sUninstaller σ) (w : World σ) (ns : GoString) :
    Option GoError × World σ :=
  let r := k.client.GetNamespace w.cluster ns
  (r.1, { w with cluster := r.2, trace := w.trace ++ [Event.getNamespace ns r.1] })

def callListNodes (k : K8sUninstaller σ) (w : World σ) :
    Except GoError (List Node) × World σ :=
  let r := k.client.ListNodes w.cluster
  (r.1, { w with cluster := r.2, trace := w.trace ++ [Event.listNodes r.1] })

def callPatchNode (k : K8sUninstaller σ) (w : World σ) (name patch : GoString) :
    Option GoError × World σ :=
  let r := k.client.PatchNode w.cluster name patch
  (r.1, { w with cluster := r.2, trace := w.trace ++ [Event.patchNode name patch r.1] })

def callGetDaemonSet (k : K8sUninstaller σ) (w : World σ) (ns name : GoString) :
    Option GoError × World σ :=
  let r := k.client.GetDaemonSet w.cluster ns name
  (r.1, { w with cluster := r.2, trace := w.trace ++ [Event.getDaemonSet ns name r.1] })

def callPatchDaemonSet (k : K8sUninstaller σ) (w : World σ) (ns name patch : GoString) :
    Option GoError × World σ :=
  let r := k.client.PatchDaemonSet w.cluster ns name patch
  (r.1, { w with cluster := r.2, trace := w.trace ++ [Event.patchDaemonSet ns name patch r.1] })

def callHelmRun (env : Env σ) (w : World σ) (client : HelmUninstall) (release : GoString) :
    Option GoError × World σ :=
  let r := env.helmRun w.cluster client release
  (r.1, { w with cluster := r.2, trace := w.trace ++ [Event.helmRun client release r.1] })

/-- Go `time.Sleep(d)`. -/
def World.sleep (w : World σ) (d : Nat) : World σ := w.emit (Event.sleep d)

/-! ## `DeleteTestNamespace` -/

/-- The `for` loop of lines 65-74; `none` when `fuel` lookups did not end it. -/
def pollNamespace (env : Env σ) (k : K8sUninstaller σ) : Nat → World σ → Option (World σ)
  | 0, _ => none
  | fuel + 1, w =>
    match callGetNamespace k w k.params.TestNamespace with
    | (none, w1) => pollNamespace env k fuel (w1.sleep env.WaitRetryInterval)
    | (some _, w1) => some w1

/-- The method `K8sUninstaller.DeleteTestNamespace`; `none` when the poll did not
end within `fuel` lookups. -/
def DeleteTestNamespace (env : Env σ) (k : K8sUninstaller σ) (fuel : Nat) (w : World σ) :
    Option (World σ) :=
  let w := w.log "🔥 Deleting pods in %s namespace..." [LogArg.str k.params.TestNamespace]
  let w := (callDeletePodCollection k w k.params.TestNamespace).2
  let w := w.log "🔥 Deleting %s namespace..." [LogArg.str k.params.TestNamespace]
  let w := (callDeleteNamespace k w k.params.TestNamespace).2
  if k.params.Wait then
    let w := w.log "⌛ Waiting for %s namespace to be terminated..."
      [LogArg.str k.params.TestNamespace]
    pollNamespace env k fuel w
  else
    some w

/-! ## `cleanupNodeAnnotations` -/

/-- The test of line 89 on an annotation key. -/
def ownedKey (key : GoString) : Bool :=
  HasPrefix key "io.cilium.".toList || HasPrefix key "cilium.io/".toList

/-- Lines 87-92: the sub-map of the keys with one of the two recognised
beginnings, built while ranging over `keys`. -/
def selectAnnotations (keys : List GoString) (m : GoMap) : GoMap :=
  keys.foldl (fun acc key => if ownedKey key then acc.set key (m.index key) else acc)
    GoMap.make

/-- The patch operation of lines 98-103 for one key. -/
def removeOp (key : GoString) : JSONPatch :=
  { OP := "remove".toList, Path := "/metadata/annotations/".toList ++ escapeKey key }

/-- Lines 96-104: one operation appended for each key visited. -/
def buildPatch (keys : List GoString) : List JSONPatch :=
  keys.foldl (fun patch key => patch ++ [removeOp key]) []

/-- Body of the loop over the nodes (lines 87-113); the error, if any, is the
one `cleanupNodeAnnotations` returns. -/
def processNode (env : Env σ) (k : K8sUninstaller σ) (node : Node) (w : World σ) :
    Option GoError × World σ :=
  let r1 := rangeKeys env w node.Annotations
  let annotations := selectAnnotations r1.1 node.Annotations
  let w := r1.2
  if annotations.len > 0 then
    let w := w.log "  Removing annotations from node %s" [LogArg.str node.Name]
    let r2 := rangeKeys env w annotations
    let patch := buildPatch r2.1
    let w := r2.2
    match env.jsonMarshal patch with
    | Except.error err =>
      (some (GoError.wrapf "failed to marshal patch for node %s: %w" [node.Name] err), w)
    | Except.ok patchBytes =>
      match callPatchNode k w node.Name patchBytes with
      | (some err, w) =>
        (some (GoError.wrapf "failed to patch node %s: %w" [node.Name] err), w)
      | (none, w) => (none, w)
  else
    (none, w)

/-- The loop over `nodes.Items` (line 86), left at the first error. -/
def nodeLoop (env : Env σ) (k : K8sUninstaller σ) : List Node → World σ → Option GoError × World σ
  | [], w => (none, w)
  | node :: rest, w =>
    match processNode env k node w with
    | (some err, w1) => (some err, w1)
    | (none, w1) => nodeLoop env k rest w1

/-- The method `K8sUninstaller.cleanupNodeAnnotations`. -/
def cleanupNodeAnnotations (env : Env σ) (k : K8sUninstaller σ) (w : World σ) :
    Option GoError × World σ :=
  let w := w.log "🔥 Cleaning up Cilium node annotations..." []
  match callListNodes k w with
  | (Except.error err, w) => (some (GoError.wrapf "failed to list nodes: %w" [] err), w)
  | (Except.ok nodes, w) => nodeLoop env k nodes w

/-! ## `undoAwsNodeNodeSelector` and `UninstallWithHelm` -/

/-- The bytes built on line 143. -/
def undoPatchBytes (key : GoString) : GoString :=
  "[\x7b\"op\":\"remove\",\"path\":\"/spec/template/spec/nodeSelector/".toList
    ++ ReplaceAll key "/".toList "~1".toList ++ "\"\x7d]".toList

/-- The method `K8sUninstaller.undoAwsNodeNodeSelector`. -/
def undoAwsNodeNodeSelector (env : Env σ) (k : K8sUninstaller σ) (w : World σ) :
    Option GoError × World σ :=
  let bytes := undoPatchBytes env.AwsNodeDaemonSetNodeSelectorKey
  let w := w.log "⏪ Undoing the changes to the %q DaemonSet..."
    [LogArg.str env.AwsNodeDaemonSetName]
  match callPatchDaemonSet k w env.AwsNodeDaemonSetNamespace env.AwsNodeDaemonSetName bytes with
  | (some err, w) =>
    (some err, w.log
      "❌ Failed to patch the %q DaemonSet, please remove it's node selector manually"
      [LogArg.str env.AwsNodeDaemonSetName])
  | (none, w) => (none, w)

/-- The helm client as configured on lines 122-127. -/
def helmClient (p : UninstallParameters) : HelmUninstall :=
  let c := NewUninstall
  let c := { c with Wait := p.Wait }
  let c := if p.Wait then { c with DeletionPropagation := "foreground".toList } else c
  { c with Timeout := p.Timeout }

/-- The method `K8sUninstaller.UninstallWithHelm`; `none` when the poll of
`DeleteTestNamespace` did not end within `fuel` lookups. -/
def UninstallWithHelm (env : Env σ) (k : K8sUninstaller σ) (fuel : Nat) (w : World σ) :
    Option (Option GoError × World σ) :=
  match DeleteTestNamespace env k fuel w with
  | none => none
  | some w =>
    match callHelmRun env w (helmClient k.params) k.params.HelmReleaseName with
    | (some err, w) => some (some err, w)
    | (none, w) =>
      let w :=
        match cleanupNodeAnnotations env k w with
        | (some err, w) => w.log "Failed to clean up node annotations: %v" [LogArg.err err]
        | (none, w) => w
      match callGetDaemonSet k w env.AwsNodeDaemonSetNamespace env.AwsNodeDaemonSetName with
      | (some _, w) => some (none, w)
      | (none, w) => some (undoAwsNodeNodeSelector env k w)


/-! ## Reading a trace -/

/-- The kind of an event. -/
inductive Kind where
  | log | deletePodCollection | deleteNamespace | getNamespace | sleep
  | helmRun | listNodes | patchNode | getDaemonSet | patchDaemonSet
  deriving DecidableEq, Repr

/-- The kind of action an event records. -/
def Event.kind : Event → Kind
  | Event.log _ _ => Kind.log
  | Event.deletePodCollection _ _ => Kind.deletePodCollection
  | Event.deleteNamespace _ _ => Kind.deleteNamespace
  | Event.getNamespace _ _ => Kind.getNamespace
  | Event.sleep _ => Kind.sleep
  | Event.helmRun _ _ _ => Kind.helmRun
  | Event.listNodes _ => Kind.listNodes
  | Event.patchNode _ _ _ => Kind.patchNode
  | Event.getDaemonSet _ _ _ => Kind.getDaemonSet
  | Event.patchDaemonSet _ _ _ _ => Kind.patchDaemonSet

/-- The node a `PatchNode` call was issued for. -/
def Event.patchedNode : Event → Option GoString
  | Event.patchNode name _ _ => some name
  | _ => none

/-- The number of events of kind `kd` in a list of events. -/
def countKind (kd : Kind) (evs : List Event) : Nat :=
  evs.countP (fun ev => decide (ev.kind = kd))

/-- Whether a node has at least one annotation key with a recognised beginning. -/
def hasOwned (node : Node) : Bool := node.Annotations.keys.any ownedKey

/-- The cluster after the two deletions that open `DeleteTestNamespace`. -/
def clusterAfterDeletes (k : K8sUninstaller σ) (c : σ) : σ :=
  (k.client.DeleteNamespace (k.client.DeletePodCollection c k.params.TestNamespace).2
    k.params.TestNamespace).2

/-- The cluster after `i` further `GetNamespace` lookups of the test namespace. -/
def clusterAfterLookups (k : K8sUninstaller σ) : Nat → σ → σ
  | 0, c => c
  | i + 1, c => clusterAfterLookups k i (k.client.GetNamespace c k.params.TestNamespace).2

/-- Result of the lookup made after `i` earlier ones. -/
def lookupResult (k : K8sUninstaller σ) (c : σ) (i : Nat) : Option GoError :=
  (k.client.GetNamespace (clusterAfterLookups k i c) k.params.TestNamespace).1

/-- The events of `n` successful rounds of the poll: a lookup, then a sleep. -/
def pollRounds (ns : GoString) (d : Nat) : Nat → List Event
  | 0 => []
  | n + 1 => Event.getNamespace ns none :: Event.sleep d :: pollRounds ns d n

/-! ## Concrete clusters for the examples -/

/-- Behaviour of a scripted cluster: the number of lookups after which the test
namespace is gone, the answer of `ListNodes`, the nodes whose patch is refused,
and the results of the release uninstall and of the two DaemonSet calls. -/
structure Script where
  lookupsOk : Nat
  nodes : Except GoError (List Node)
  refused : List GoString
  helm : Option GoError
  getDs : Option GoError
  patchDs : Option GoError

/-- A client that follows a script; its state counts the namespace lookups. -/
def scripted (s : Script) : Client Nat where
  DeletePodCollection := fun c _ => (none, c)
  DeleteNamespace := fun c _ => (none, c)
  GetNamespace := fun c _ =>
    (if c < s.lookupsOk then none else some (GoError.base "not found".toList), c + 1)
  ListNodes := fun c => (s.nodes, c)
  PatchNode := fun c name _ =>
    (if name ∈ s.refused then some (GoError.base "refused".toList) else none, c)
  GetDaemonSet := fun c _ _ => (s.getDs, c)
  PatchDaemonSet := fun c _ _ _ => (s.patchDs, c)

/-- A rendering of a patch document, standing for `json.Marshal`: the paths,
each closed by a semicolon. -/
def renderPatch (patch : List JSONPatch) : GoString :=
  patch.flatMap (fun op => op.Path ++ [';'])

/-- The environment of the examples: maps are ranged over in storage order. -/
def scriptedEnv (s : Script) (key : GoString) : Env Nat where
  helmRun := fun c _ _ => (s.helm, c)
  jsonMarshal := fun patch => Except.ok (renderPatch patch)
  rangeOrder := ⟨fun _ l => l, fun _ l => List.Perm.refl l⟩
  WaitRetryInterval := 2
  AwsNodeDaemonSetNamespace := "kube-system".toList
  AwsNodeDaemonSetName := "aws-node".toList
  AwsNodeDaemonSetNodeSelectorKey := key

/-- The uninstaller of the examples. -/
def scriptedUninstaller (s : Script) ( wait : Bool) : K8sUninstaller Nat where
  client := scripted s
  params :=
    { Namespace := "kube-system".toList, TestNamespace := "cilium-test".toList, Wait := wait,
      HelmValuesSecretName := [], RedactHelmCertKeys := false, HelmChartDirectory := [],
      WorkerCount := 0, Timeout := 0, HelmReleaseName := "cilium".toList }

/-- The start of a run. -/
def world0 : World Nat := ⟨0, [], 0⟩

/-- Annotations `cilium.io/a`, `io.cilium.b` and `other`. -/
def annotations3 : GoMap :=
  ((GoMap.make.set "other".toList "3".toList).set "io.cilium.b".toList "2".toList).set
    "cilium.io/a".toList "1".toList

/-- A node with the three annotations above. -/
def nodeA : Node := ⟨"node-a".toList, annotations3⟩

/-- A node without any annotation of the platform. -/
def nodeB : Node := ⟨"node-b".toList, GoMap.make.set "other".toList "3".toList⟩

/-- A node with one annotation of the platform. -/
def nodeC : Node := ⟨"node-c".toList, GoMap.make.set "io.cilium.x".toList "1".toList⟩

/-- The key named by the comment on line 135. -/
def awsKey : GoString := "io.cilium/aws-node-enabled".toList

/-- Script in which every call succeeds and the namespace is gone at once. -/
def allOk : Script := ⟨0, Except.ok [nodeA, nodeB, nodeC], [], none, none, none⟩

/-- Script of C7: the lookups give success, success, error. -/
def twoThenGone : Script := ⟨2, Except.ok [], [], none, none, none⟩

/-- A second node with one annotation of the platform. -/
def nodeD : Node := ⟨"node-d".toList, GoMap.make.set "cilium.io/y".toList "1".toList⟩

/-- Script in which the patch of `node-c` is refused. -/
def refusedC : Script :=
  ⟨0, Except.ok [nodeA, nodeB, nodeC, nodeD], ["node-c".toList], none, none, none⟩

/-- Script in which the release uninstall fails. -/
def helmFails : Script :=
  ⟨0, Except.ok [nodeA], [], some (GoError.base "release not found".toList), none, none⟩

/-- Script in which the listing of the nodes fails and the marker DaemonSet is
absent. -/
def noMarker : Script :=
  ⟨0, Except.error (GoError.base "forbidden".toList), [], none,
    some (GoError.base "not found".toList), none⟩

/-- Script in which the marker DaemonSet is found and its patch fails. -/
def rollbackFails : Script :=
  ⟨0, Except.ok [nodeA], [], none, none, some (GoError.base "conflict".toList)⟩

/-- Script in which the listing of the nodes fails, the marker DaemonSet is
found and its patch fails. -/
def cleanupAndRollbackFail : Script :=
  ⟨0, Except.error (GoError.base "forbidden".toList), [], none, none,
    some (GoError.base "conflict".toList)⟩

/-- The events of kind `kd` in a list of events, in order. -/
def ofKind (kd : Kind) (evs : List Event) : List Event :=
  evs.filter (fun ev => decide (ev.kind = kd))

/-- The world in which the cleanup of a run starts: the one the release
uninstall leaves, the reaping having ended in `w1`. -/
def afterRelease (env : Env σ) (k : K8sUninstaller σ) (w1 : World σ) : World σ :=
  (callHelmRun env w1 (helmClient k.params) k.params.HelmReleaseName).2

/-- The world in which the cleanup of that run ends. -/
def afterCleanup (env : Env σ) (k : K8sUninstaller σ) (w1 : World σ) : World σ :=
  (cleanupNodeAnnotations env k (afterRelease env k w1)).2

/-! ## JSON text of a patch document with one remove operation -/

/-- Lower-case hexadecimal digit. -/
def hexDigit (n : Nat) : Char :=
  if n < 10 then Char.ofNat (48 + n) else Char.ofNat (87 + n)

/-- A character inside a JSON string: the quote, the backslash and the control
characters are escaped, any other character stands for itself. -/
def jsonEscape (c : Char) : GoString :=
  if c = Char.ofNat 34 then [Char.ofNat 92, Char.ofNat 34]
  else if c = Char.ofNat 92 then [Char.ofNat 92, Char.ofNat 92]
  else if c.toNat < 32 then
    [Char.ofNat 92, 'u', '0', '0', hexDigit (c.toNat / 16), hexDigit (c.toNat % 16)]
  else [c]

/-- A string as JSON text: its characters, escaped, between quotes. -/
def jsonString (s : GoString) : GoString :=
  Char.ofNat 34 :: s.flatMap jsonEscape ++ [Char.ofNat 34]

/-- JSON text of the patch document whose only operation removes `path`: an
array of one object with the members `op` and `path`. -/
def jsonRemoveDocument (path : GoString) : GoString :=
  "[\x7b".toList ++ jsonString "op".toList ++ ":".toList ++ jsonString "remove".toList
    ++ ",".toList ++ jsonString "path".toList ++ ":".toList ++ jsonString path
    ++ "\x7d]".toList
/-! ## Checks of the string functions on small inputs -/

example : escapeKey "a/b~c".toList = "a~1b~0c".toList := by decide
example : ReplaceAll "aaa".toList "aa".toList "b".toList = "ba".toList := by decide
example : ReplaceAll "ab".toList [] "-".toList = "-a-b-".toList := by decide

/-! ## Lemmas on the string functions -/

theorem replaceScan_single (a : Char) (new s : GoString) :
    replaceScan [a] new 0 s = s.flatMap (fun c => if c = a then new else [c]) := by
  induction s with
  | nil => rfl
  | cons c cs ih =>
    by_cases h : c = a
    · subst h
      simp [replaceScan, ih]
    · have h' : ¬ a = c := fun e => h e.symm
      simp [replaceScan, ih, h, h']

theorem ReplaceAll_single (a : Char) (new s : GoString) :
    ReplaceAll s [a] new = s.flatMap (fun c => if c = a then new else [c]) := by
  simp [ReplaceAll, replaceScan_single]

theorem escapeKey_eq_encodeKey (key : GoString) : escapeKey key = encodeKey key := by
  have h1 : "~".toList = ['~'] := rfl
  have h2 : "/".toList = ['/'] := rfl
  have h3 : "~0".toList = ['~', '0'] := rfl
  have h4 : "~1".toList = ['~', '1'] := rfl
  unfold escapeKey encodeKey
  rw [h1, h2, h3, h4, ReplaceAll_single, ReplaceAll_single]
  induction key with
  | nil => rfl
  | cons c cs ih =>
    simp only [List.flatMap_cons, List.flatMap_append, ih]
    congr 1
    unfold encodeChar
    by_cases hc : c = '~'
    · subst hc; decide
    · by_cases hd : c = '/'
      · subst hd; decide
      · simp [hc, hd]

example : undoPatchBytes "io.cilium/aws-node-enabled".toList =
    ("[" ++ "\x7b" ++ "\"op\":\"remove\",\"path\":\"/spec/template/spec/nodeSelector/io.cilium~1aws-node-enabled\"" ++ "\x7d" ++ "]").toList := by
  decide

/-! ## Properties of the escaping -/

theorem encodeKey_append (a b : GoString) :
    encodeKey (a ++ b) = encodeKey a ++ encodeKey b := by
  simp [encodeKey, List.flatMap_append]

theorem encodeKey_cons (c : Char) (cs : GoString) :
    encodeKey (c :: cs) = encodeChar c ++ encodeKey cs := by
  simp [encodeKey, List.flatMap_cons]

/-- A key without `~` and `/` is its own encoding. -/
theorem encodeKey_plain (key : GoString) (h1 : '~' ∉ key) (h2 : '/' ∉ key) :
    encodeKey key = key := by
  induction key with
  | nil => rfl
  | cons c cs ih =>
    have hc1 : c ≠ '~' := fun e => h1 (by simp [e])
    have hc2 : c ≠ '/' := fun e => h2 (by simp [e])
    have i1 : '~' ∉ cs := fun e => h1 (List.mem_cons_of_mem _ e)
    have i2 : '/' ∉ cs := fun e => h2 (List.mem_cons_of_mem _ e)
    rw [encodeKey_cons, ih i1 i2]
    simp [encodeChar, hc1, hc2]

/-- Encoding never shortens a key. -/
theorem encodeKey_length_ge (key : GoString) : key.length ≤ (encodeKey key).length := by
  induction key with
  | nil => simp [encodeKey]
  | cons c cs ih =>
    rw [encodeKey_cons, List.length_append, List.length_cons]
    have : 1 ≤ (encodeChar c).length := by
      unfold encodeChar
      split_ifs <;> simp
    omega

/-- A key with a `~` or a `/` gets strictly longer, and its encoding holds a `~`. -/
theorem encodeKey_special (key : GoString) (h : '~' ∈ key ∨ '/' ∈ key) :
    key.length < (encodeKey key).length ∧ '~' ∈ encodeKey key := by
  induction key with
  | nil => simp at h
  | cons c cs ih =>
    rw [encodeKey_cons, List.length_append, List.length_cons]
    have hge := encodeKey_length_ge cs
    by_cases hc1 : c = '~'
    · subst hc1
      constructor
      · simp [encodeChar]; omega
      · simp [encodeChar]
    · by_cases hc2 : c = '/'
      · subst hc2
        constructor
        · simp [encodeChar]; omega
        · simp [encodeChar]
      · have hcs : '~' ∈ cs ∨ '/' ∈ cs := by
          rcases h with h | h
          · rcases List.mem_cons.1 h with e | e
            · exact absurd e.symm hc1
            · exact Or.inl e
          · rcases List.mem_cons.1 h with e | e
            · exact absurd e.symm hc2
            · exact Or.inr e
        have := ih hcs
        constructor
        · simp [encodeChar, hc1, hc2]; omega
        · exact List.mem_append_right _ this.2

/-- Claim C1: the path segment the cleaner derives from a key (`~` to `~0`, then
`/` to `~1`) is the character-by-character encoding of the key: every `~`
becomes `~0`, every `/` becomes `~1` and nothing else, in position, so that a
`/` never comes out as `~01`; the key `a/b~c` gives `a~1b~0c`. -/
theorem C1_escapeKey_is_charwise_encoding (key : GoString) :
    escapeKey key = encodeKey key
    ∧ (∀ a b : GoString, escapeKey (a ++ '/' :: b) = escapeKey a ++ "~1".toList ++ escapeKey b)
    ∧ (∀ a b : GoString, escapeKey (a ++ '~' :: b) = escapeKey a ++ "~0".toList ++ escapeKey b)
    ∧ (∀ (a b : GoString) (c : Char), c ≠ '~' → c ≠ '/' →
        escapeKey (a ++ c :: b) = escapeKey a ++ c :: escapeKey b)
    ∧ escapeKey "a/b~c".toList = "a~1b~0c".toList := by
  refine ⟨escapeKey_eq_encodeKey key, ?_, ?_, ?_, by decide⟩
  · intro a b
    simp only [escapeKey_eq_encodeKey, encodeKey_append, encodeKey_cons]
    simp [encodeChar]
  · intro a b
    simp only [escapeKey_eq_encodeKey, encodeKey_append, encodeKey_cons]
    simp [encodeChar]
  · intro a b c h1 h2
    simp only [escapeKey_eq_encodeKey, encodeKey_append, encodeKey_cons]
    simp [encodeChar, h1, h2]

/-- Witness of C1 on the key `x~y/z`: the inner conditions of the statement
are met by the character `y`. -/
theorem C1_escapeKey_witness :
    escapeKey "x~y/z".toList = "x~0y~1z".toList
    ∧ escapeKey ("x~".toList ++ 'y' :: "/z".toList)
        = escapeKey "x~".toList ++ 'y' :: escapeKey "/z".toList :=
  ⟨by decide,
   (C1_escapeKey_is_charwise_encoding []).2.2.2.1 "x~".toList "/z".toList 'y'
     (by decide) (by decide)⟩

/-- Claim C10: escaping twice equals escaping once exactly for the keys that
hold neither `~` nor `/`, and those keys are left unchanged by the escaping. -/
theorem C10_escapeKey_idempotent_iff (key : GoString) :
    (escapeKey (escapeKey key) = escapeKey key ↔ ('~' ∉ key ∧ '/' ∉ key))
    ∧ (('~' ∉ key ∧ '/' ∉ key) → escapeKey key = key) := by
  simp only [escapeKey_eq_encodeKey]
  constructor
  · constructor
    · intro h
      by_contra hne
      have hk : '~' ∈ key ∨ '/' ∈ key := by
        by_contra hk
        push_neg at hk
        exact hne hk
      have h1 := (encodeKey_special key hk).2
      have h2 := (encodeKey_special (encodeKey key) (Or.inl h1)).1
      rw [h] at h2
      exact lt_irrefl _ h2
    · rintro ⟨h1, h2⟩
      rw [encodeKey_plain key h1 h2, encodeKey_plain key h1 h2]
  · rintro ⟨h1, h2⟩
    exact encodeKey_plain key h1 h2

/-- Witness of C10 on the plain key `abc` and on the key `a/b`. -/
theorem C10_escapeKey_witness :
    escapeKey "abc".toList = "abc".toList
    ∧ escapeKey (escapeKey "a/b".toList) ≠ escapeKey "a/b".toList :=
  ⟨(C10_escapeKey_idempotent_iff "abc".toList).2 ⟨by decide, by decide⟩, by decide⟩

/-! ## Small runs -/

example : annotations3.keys = ["cilium.io/a".toList, "io.cilium.b".toList, "other".toList] := by
  decide
example : (annotations3.keys.filter ownedKey).map removeOp
    = [removeOp "cilium.io/a".toList, removeOp "io.cilium.b".toList] := by decide
example : (UninstallWithHelm (scriptedEnv allOk awsKey) (scriptedUninstaller allOk false) 0
    world0).map (fun r => (r.1, r.2.trace.map Event.kind))
    = some (none, [Kind.log, Kind.deletePodCollection, Kind.log, Kind.deleteNamespace,
        Kind.helmRun, Kind.log, Kind.listNodes, Kind.log, Kind.patchNode, Kind.log,
        Kind.patchNode, Kind.getDaemonSet, Kind.log, Kind.patchDaemonSet]) := by
  decide

/-! ## The trace only grows -/

theorem events_of_trace {w1 w2 : World σ} {evs : List Event}
    (h : w2.trace = w1.trace ++ evs) : events w1 w2 = evs := by
  simp [events, h]

theorem events_self (w : World σ) : events w w = [] := by
  simp [events]

theorem log_trace (w : World σ) (f : String) (a : List LogArg) :
    (w.log f a).trace = w.trace ++ [Event.log f a] := rfl

theorem log_cluster (w : World σ) (f : String) (a : List LogArg) :
    (w.log f a).cluster = w.cluster := rfl

theorem log_ranges (w : World σ) (f : String) (a : List LogArg) :
    (w.log f a).ranges = w.ranges := rfl

theorem countKind_append (kd : Kind) (a b : List Event) :
    countKind kd (a ++ b) = countKind kd a + countKind kd b := by
  simp [countKind, List.countP_append]

theorem countKind_pollRounds_lookup (ns : GoString) (d n : Nat) :
    countKind Kind.getNamespace (pollRounds ns d n) = n := by
  induction n with
  | zero => rfl
  | succ n ih =>
    unfold countKind at ih
    rw [pollRounds, countKind, List.countP_cons, List.countP_cons, ih]
    simp [Event.kind]

theorem countKind_pollRounds_sleep (ns : GoString) (d n : Nat) :
    countKind Kind.sleep (pollRounds ns d n) = n := by
  induction n with
  | zero => rfl
  | succ n ih =>
    unfold countKind at ih
    rw [pollRounds, countKind, List.countP_cons, List.countP_cons, ih]
    simp [Event.kind]

/-! ## The poll of `DeleteTestNamespace` -/

/-- With `n` successful lookups followed by a failing one, the poll ends for
every fuel above `n`, after `n` rounds and the failing lookup. -/
theorem pollNamespace_script (env : Env σ) (k : K8sUninstaller σ) (n : Nat) (e : GoError) :
    ∀ (w : World σ) (fuel : Nat), n < fuel →
      (∀ i, i < n → lookupResult k w.cluster i = none) →
      lookupResult k w.cluster n = some e →
      ∃ w1, pollNamespace env k fuel w = some w1 ∧
        w1.trace = w.trace ++ pollRounds k.params.TestNamespace env.WaitRetryInterval n
          ++ [Event.getNamespace k.params.TestNamespace (some e)] := by
  induction n with
  | zero =>
    intro w fuel hf _ herr
    obtain ⟨f, rfl⟩ : ∃ f, fuel = f + 1 := ⟨fuel - 1, by omega⟩
    simp only [lookupResult, clusterAfterLookups] at herr
    refine ⟨(callGetNamespace k w k.params.TestNamespace).2, ?_, ?_⟩
    · simp only [pollNamespace, callGetNamespace, herr]
    · simp [pollRounds, callGetNamespace, herr]
  | succ n ih =>
    intro w fuel hf hok herr
    obtain ⟨f, rfl⟩ : ∃ f, fuel = f + 1 := ⟨fuel - 1, by omega⟩
    have h0 : (k.client.GetNamespace w.cluster k.params.TestNamespace).1 = none := by
      simpa [lookupResult, clusterAfterLookups] using hok 0 (Nat.succ_pos n)
    let w2 : World σ :=
      ({ w with
          cluster := (k.client.GetNamespace w.cluster k.params.TestNamespace).2,
          trace := w.trace ++ [Event.getNamespace k.params.TestNamespace none] } :
        World σ).sleep env.WaitRetryInterval
    have hstep : pollNamespace env k (f + 1) w = pollNamespace env k f w2 := by
      simp only [pollNamespace, callGetNamespace, h0, w2]
    have hok2 : ∀ i, i < n → lookupResult k w2.cluster i = none := by
      intro i hi
      have := hok (i + 1) (by omega)
      simpa [lookupResult, clusterAfterLookups, w2, World.sleep, World.emit] using this
    have herr2 : lookupResult k w2.cluster n = some e := by
      simpa [lookupResult, clusterAfterLookups, w2, World.sleep, World.emit] using herr
    obtain ⟨w1, hrun, htr⟩ := ih w2 f (by omega) hok2 herr2
    refine ⟨w1, by rw [hstep, hrun], ?_⟩
    rw [htr]
    simp [w2, World.sleep, World.emit, pollRounds]

/-- Below or at `n` units of fuel the same poll is still running. -/
theorem pollNamespace_short (env : Env σ) (k : K8sUninstaller σ) (n : Nat) :
    ∀ (w : World σ) (fuel : Nat), fuel ≤ n →
      (∀ i, i < n → lookupResult k w.cluster i = none) →
      pollNamespace env k fuel w = none := by
  induction n with
  | zero =>
    intro w fuel hf _
    obtain rfl : fuel = 0 := by omega
    rfl
  | succ n ih =>
    intro w fuel hf hok
    cases fuel with
    | zero => rfl
    | succ f =>
      have h0 : (k.client.GetNamespace w.cluster k.params.TestNamespace).1 = none := by
        simpa [lookupResult, clusterAfterLookups] using hok 0 (Nat.succ_pos n)
      simp only [pollNamespace, callGetNamespace, h0]
      apply ih _ f (by omega)
      intro i hi
      have := hok (i + 1) (by omega)
      simpa [lookupResult, clusterAfterLookups, World.sleep, World.emit] using this

/-- The events that open `DeleteTestNamespace`, before any poll. -/
theorem deletes_trace (k : K8sUninstaller σ) (w : World σ) :
    ((callDeleteNamespace k
        (((callDeletePodCollection k
          (w.log "🔥 Deleting pods in %s namespace..." [LogArg.str k.params.TestNamespace])
          k.params.TestNamespace).2).log "🔥 Deleting %s namespace..."
          [LogArg.str k.params.TestNamespace]) k.params.TestNamespace).2).trace
      = w.trace ++
        [Event.log "🔥 Deleting pods in %s namespace..." [LogArg.str k.params.TestNamespace],
         Event.deletePodCollection k.params.TestNamespace
           (k.client.DeletePodCollection w.cluster k.params.TestNamespace).1,
         Event.log "🔥 Deleting %s namespace..." [LogArg.str k.params.TestNamespace],
         Event.deleteNamespace k.params.TestNamespace
           (k.client.DeleteNamespace
             (k.client.DeletePodCollection w.cluster k.params.TestNamespace).2
             k.params.TestNamespace).1] := by
  simp [callDeleteNamespace, callDeletePodCollection, World.log, World.emit]

/-- The world in which the poll of `DeleteTestNamespace` starts. -/
theorem poll_start (k : K8sUninstaller σ) (w : World σ) :
    ∃ w0 : World σ,
      w0 = ((callDeleteNamespace k
        (((callDeletePodCollection k
          (w.log "🔥 Deleting pods in %s namespace..." [LogArg.str k.params.TestNamespace])
          k.params.TestNamespace).2).log "🔥 Deleting %s namespace..."
          [LogArg.str k.params.TestNamespace]) k.params.TestNamespace).2).log
          "⌛ Waiting for %s namespace to be terminated..." [LogArg.str k.params.TestNamespace]
      ∧ w0.cluster = clusterAfterDeletes k w.cluster
      ∧ ∃ r1 r2, w0.trace = w.trace ++
        [Event.log "🔥 Deleting pods in %s namespace..." [LogArg.str k.params.TestNamespace],
         Event.deletePodCollection k.params.TestNamespace r1,
         Event.log "🔥 Deleting %s namespace..." [LogArg.str k.params.TestNamespace],
         Event.deleteNamespace k.params.TestNamespace r2,
         Event.log "⌛ Waiting for %s namespace to be terminated..."
           [LogArg.str k.params.TestNamespace]] := by
  refine ⟨_, rfl, rfl,
    (k.client.DeletePodCollection w.cluster k.params.TestNamespace).1,
    (k.client.DeleteNamespace
      (k.client.DeletePodCollection w.cluster k.params.TestNamespace).2
      k.params.TestNamespace).1, ?_⟩
  rw [log_trace, deletes_trace]
  simp

/-- Claim C7: with the wait option set, when the lookups of the test namespace
succeed `n` times and then fail, `DeleteTestNamespace` ends (for every fuel
above `n`, and for none up to `n`) after exactly `n + 1` lookups and `n` sleeps
of the retry interval: after the five opening events the trace is `n` rounds
of a successful lookup followed by a sleep, then the failing lookup. -/
theorem C7_poll_sleeps_once_per_successful_lookup (env : Env σ) (k : K8sUninstaller σ)
    (w : World σ) (n : Nat) (e : GoError) (fuel : Nat)
    (hwait : k.params.Wait = true)
    (hok : ∀ i, i < n → lookupResult k (clusterAfterDeletes k w.cluster) i = none)
    (herr : lookupResult k (clusterAfterDeletes k w.cluster) n = some e)
    (hfuel : n < fuel) :
    ∃ w1, DeleteTestNamespace env k fuel w = some w1
      ∧ countKind Kind.getNamespace (events w w1) = n + 1
      ∧ countKind Kind.sleep (events w w1) = n
      ∧ (events w w1).drop 5
          = pollRounds k.params.TestNamespace env.WaitRetryInterval n
            ++ [Event.getNamespace k.params.TestNamespace (some e)]
      ∧ ∀ short, short ≤ n → DeleteTestNamespace env k short w = none := by
  obtain ⟨w0, hw0, hc, r1, r2, htr⟩ := poll_start k w
  have hD : ∀ f, DeleteTestNamespace env k f w = pollNamespace env k f w0 := by
    intro f
    simp only [DeleteTestNamespace, hwait, if_true, hw0]
  obtain ⟨w1, hrun, htr1⟩ :=
    pollNamespace_script env k n e w0 fuel hfuel (by rw [hc]; exact hok) (by rw [hc]; exact herr)
  refine ⟨w1, by rw [hD, hrun], ?_⟩
  have hev : events w w1 =
      [Event.log "🔥 Deleting pods in %s namespace..." [LogArg.str k.params.TestNamespace],
       Event.deletePodCollection k.params.TestNamespace r1,
       Event.log "🔥 Deleting %s namespace..." [LogArg.str k.params.TestNamespace],
       Event.deleteNamespace k.params.TestNamespace r2,
       Event.log "⌛ Waiting for %s namespace to be terminated..."
         [LogArg.str k.params.TestNamespace]]
      ++ (pollRounds k.params.TestNamespace env.WaitRetryInterval n
        ++ [Event.getNamespace k.params.TestNamespace (some e)]) := by
    apply events_of_trace
    rw [htr1, htr]
    simp
  rw [hev]
  refine ⟨?_, ?_, ?_, ?_⟩
  · rw [countKind_append, countKind_append, countKind_pollRounds_lookup]
    simp [countKind, Event.kind]
  · rw [countKind_append, countKind_append, countKind_pollRounds_sleep]
    simp [countKind, Event.kind]
  · simp
  · intro short hs
    rw [hD]
    exact pollNamespace_short env k n w0 short hs (by rw [hc]; exact hok)

/-- Witness of C7: for the lookup results success, success, error the run ends
after exactly two sleeps and three lookups. -/
theorem C7_poll_witness :
    (∀ i, i < 2 → lookupResult (scriptedUninstaller twoThenGone true)
        (clusterAfterDeletes (scriptedUninstaller twoThenGone true) world0.cluster) i = none)
    ∧ lookupResult (scriptedUninstaller twoThenGone true)
        (clusterAfterDeletes (scriptedUninstaller twoThenGone true) world0.cluster) 2
        = some (GoError.base "not found".toList)
    ∧ ∃ w1, DeleteTestNamespace (scriptedEnv twoThenGone awsKey)
          (scriptedUninstaller twoThenGone true) 3 world0 = some w1
        ∧ countKind Kind.getNamespace (events world0 w1) = 2 + 1
        ∧ countKind Kind.sleep (events world0 w1) = 2
        ∧ (events world0 w1).drop 5
          = pollRounds (scriptedUninstaller twoThenGone true).params.TestNamespace
              (scriptedEnv twoThenGone awsKey).WaitRetryInterval 2
            ++ [Event.getNamespace (scriptedUninstaller twoThenGone true).params.TestNamespace
                (some (GoError.base "not found".toList))]
        ∧ ∀ short, short ≤ 2 → DeleteTestNamespace (scriptedEnv twoThenGone awsKey)
            (scriptedUninstaller twoThenGone true) short world0 = none :=
  ⟨by decide, by decide,
   C7_poll_sleeps_once_per_successful_lookup (scriptedEnv twoThenGone awsKey)
     (scriptedUninstaller twoThenGone true) world0 2 (GoError.base "not found".toList) 3
     rfl (by decide) (by decide) (by decide)⟩

/-! ## The annotations selected on a node and the patch built from them -/

theorem GoMap.keys_set_of_not_mem (m : GoMap) (key v : GoString) (h : key ∉ m.keys) :
    (m.set key v).keys = key :: m.keys := by
  unfold GoMap.keys at h ⊢
  simp only [GoMap.set, List.map_cons]
  congr 1
  congr 1
  apply List.filter_eq_self.2
  intro e he
  have : e.1 ≠ key := fun hk => h (hk ▸ List.mem_map_of_mem Prod.fst he)
  simpa using this

theorem GoMap.len_eq_keys_length (m : GoMap) : m.len = m.keys.length := by
  simp [GoMap.len, GoMap.keys]

/-- Ranging over distinct keys, none of them in the map yet, adds exactly the
recognised ones. -/
theorem select_fold_keys (m : GoMap) :
    ∀ (ks : List GoString) (acc : GoMap), ks.Nodup → (∀ x ∈ ks, x ∉ acc.keys) →
      (ks.foldl (fun acc key => if ownedKey key then acc.set key (m.index key) else acc)
        acc).keys.Perm (ks.filter ownedKey ++ acc.keys) := by
  intro ks
  induction ks with
  | nil => intro acc _ _; simp
  | cons x xs ih =>
    intro acc hnd hdis
    have hx : x ∉ acc.keys := hdis x (List.mem_cons_self _ _)
    have hxs : xs.Nodup := (List.nodup_cons.1 hnd).2
    have hxn : x ∉ xs := (List.nodup_cons.1 hnd).1
    rw [List.foldl_cons]
    by_cases ho : ownedKey x = true
    · simp only [ho, if_true, List.filter_cons_of_pos]
      have hdis2 : ∀ y ∈ xs, y ∉ (acc.set x (m.index x)).keys := by
        intro y hy
        rw [GoMap.keys_set_of_not_mem _ _ _ hx]
        intro hmem
        rcases List.mem_cons.1 hmem with e | e
        · exact hxn (e ▸ hy)
        · exact hdis y (List.mem_cons_of_mem _ hy) e
      refine (ih _ hxs hdis2).trans ?_
      rw [GoMap.keys_set_of_not_mem _ _ _ hx]
      exact List.perm_middle
    · have ho2 : ownedKey x = false := by simpa using ho
      simp only [ho2, Bool.false_eq_true, if_false]
      rw [List.filter_cons_of_neg (by simp [ho2])]
      exact ih acc hxs (fun y hy => hdis y (List.mem_cons_of_mem _ hy))

theorem selectAnnotations_keys (m : GoMap) (ks : List GoString) (h : ks.Perm m.keys) :
    (selectAnnotations ks m).keys.Perm (m.keys.filter ownedKey) := by
  have hnd : ks.Nodup := h.nodup_iff.2 m.nodup
  have := select_fold_keys m ks GoMap.make hnd (by intro x _; simp [GoMap.make, GoMap.keys])
  unfold selectAnnotations
  refine this.trans ?_
  simp only [GoMap.make, GoMap.keys, List.map_nil, List.append_nil]
  exact h.filter _

theorem buildPatch_eq_map (ks : List GoString) : buildPatch ks = ks.map removeOp := by
  have : ∀ (ks : List GoString) (acc : List JSONPatch),
      ks.foldl (fun patch key => patch ++ [removeOp key]) acc = acc ++ ks.map removeOp := by
    intro ks
    induction ks with
    | nil => intro acc; simp
    | cons x xs ih => intro acc; simp [ih]
  simpa [buildPatch] using this ks []

theorem hasOwned_iff_filter (node : Node) :
    hasOwned node = true ↔ node.Annotations.keys.filter ownedKey ≠ [] := by
  simp [hasOwned, List.filter_eq_nil_iff]

/-- The patch document `processNode` builds for a node in the world `w`. -/
theorem nodePatch_perm (env : Env σ) (w : World σ) (node : Node) :
    (buildPatch (rangeKeys env (rangeKeys env w node.Annotations).2
        (selectAnnotations (rangeKeys env w node.Annotations).1 node.Annotations)).1).Perm
      ((node.Annotations.keys.filter ownedKey).map removeOp) := by
  rw [buildPatch_eq_map]
  apply List.Perm.map
  simp only [rangeKeys]
  exact (env.rangeOrder.perm _ _).trans
    (selectAnnotations_keys _ _ (env.rangeOrder.perm _ _))

theorem selected_len_pos (env : Env σ) (w : World σ) (node : Node) :
    (selectAnnotations (rangeKeys env w node.Annotations).1 node.Annotations).len > 0
      ↔ hasOwned node = true := by
  have hp := selectAnnotations_keys node.Annotations (rangeKeys env w node.Annotations).1
    (env.rangeOrder.perm _ _)
  rw [GoMap.len_eq_keys_length, hp.length_eq, hasOwned_iff_filter]
  exact List.length_pos

/-! ## One node, then the loop over the nodes -/

/-- What processing one node does: nothing for a node without recognised key;
otherwise a log line, then either a marshalling error or one `PatchNode` call
whose payload is the marshalled patch and whose error, if any, is returned
wrapped. -/
theorem processNode_cases (env : Env σ) (k : K8sUninstaller σ) (node : Node) (w : World σ) :
    (hasOwned node = false ∧ (processNode env k node w).1 = none
      ∧ (processNode env k node w).2.trace = w.trace)
    ∨ (hasOwned node = true ∧ ∃ patch : List JSONPatch,
        patch.Perm ((node.Annotations.keys.filter ownedKey).map removeOp)
        ∧ ((∃ err, env.jsonMarshal patch = Except.error err
              ∧ (processNode env k node w).1
                = some (GoError.wrapf "failed to marshal patch for node %s: %w" [node.Name] err)
              ∧ (processNode env k node w).2.trace = w.trace ++
                  [Event.log "  Removing annotations from node %s" [LogArg.str node.Name]])
          ∨ (∃ b res, env.jsonMarshal patch = Except.ok b
              ∧ res = (k.client.PatchNode w.cluster node.Name b).1
              ∧ (processNode env k node w).1
                = res.map (GoError.wrapf "failed to patch node %s: %w" [node.Name])
              ∧ (processNode env k node w).2.trace = w.trace ++
                  [Event.log "  Removing annotations from node %s" [LogArg.str node.Name],
                   Event.patchNode node.Name b res]))) := by
  by_cases ho : hasOwned node = true
  · right
    refine ⟨ho, _, nodePatch_perm env w node, ?_⟩
    have hlen := (selected_len_pos env w node).2 ho
    cases hm : env.jsonMarshal (buildPatch (rangeKeys env (rangeKeys env w node.Annotations).2
        (selectAnnotations (rangeKeys env w node.Annotations).1 node.Annotations)).1) with
    | error err =>
      left
      refine ⟨err, rfl, ?_, ?_⟩
      · simp only [processNode, hlen, if_true]
        simp only [rangeKeys, World.log, World.emit] at hm ⊢
        rw [hm]
      · simp only [processNode, hlen, if_true]
        simp only [rangeKeys, World.log, World.emit] at hm ⊢
        rw [hm]
    | ok b =>
      right
      refine ⟨b, _, rfl, rfl, ?_, ?_⟩
      · simp only [processNode, hlen, if_true]
        simp only [rangeKeys, World.log, World.emit] at hm ⊢
        rw [hm]
        simp only [callPatchNode]
        cases (k.client.PatchNode w.cluster node.Name b).1 <;> rfl
      · simp only [processNode, hlen, if_true]
        simp only [rangeKeys, World.log, World.emit] at hm ⊢
        rw [hm]
        simp only [callPatchNode]
        cases (k.client.PatchNode w.cluster node.Name b).1 <;> simp
  · left
    have ho2 : hasOwned node = false := by simpa using ho
    have hlen : ¬ (selectAnnotations (rangeKeys env w node.Annotations).1
        node.Annotations).len > 0 := fun h => ho ((selected_len_pos env w node).1 h)
    refine ⟨ho2, ?_, ?_⟩
    · simp only [processNode, hlen, if_false]
    · simp only [processNode, hlen, if_false]
      rfl

theorem nodeLoop_cons_none (env : Env σ) (k : K8sUninstaller σ) (node : Node)
    (rest : List Node) (w : World σ) (h : (processNode env k node w).1 = none) :
    nodeLoop env k (node :: rest) w = nodeLoop env k rest (processNode env k node w).2 := by
  rw [nodeLoop]
  rcases hp : processNode env k node w with ⟨r, w1⟩
  rw [hp] at h
  simp only at h
  subst h
  rfl

theorem nodeLoop_cons_some (env : Env σ) (k : K8sUninstaller σ) (node : Node)
    (rest : List Node) (w : World σ) (e : GoError)
    (h : (processNode env k node w).1 = some e) :
    nodeLoop env k (node :: rest) w = (some e, (processNode env k node w).2) := by
  rw [nodeLoop]
  rcases hp : processNode env k node w with ⟨r, w1⟩
  rw [hp] at h
  simp only at h
  subst h
  rfl

/-- After a prefix of the nodes went through without error the loop goes on
with the rest. -/
theorem nodeLoop_append (env : Env σ) (k : K8sUninstaller σ) (rest : List Node) :
    ∀ (pre : List Node) (w w2 : World σ), nodeLoop env k pre w = (none, w2) →
      nodeLoop env k (pre ++ rest) w = nodeLoop env k rest w2 := by
  intro pre
  induction pre with
  | nil =>
    intro w w2 h
    simp only [nodeLoop, Prod.mk.injEq, true_and] at h
    subst h
    rfl
  | cons n ns ih =>
    intro w w2 h
    cases hp : (processNode env k n w).1 with
    | none =>
      rw [nodeLoop_cons_none env k n ns w hp] at h
      rw [List.cons_append, nodeLoop_cons_none env k n _ w hp]
      exact ih _ _ h
    | some e =>
      rw [nodeLoop_cons_some env k n ns w e hp] at h
      simp at h

/-- The loop over the nodes adds log lines and `PatchNode` calls only. -/
theorem nodeLoop_kinds (env : Env σ) (k : K8sUninstaller σ) :
    ∀ (nodes : List Node) (w : World σ), ∃ evs,
      (nodeLoop env k nodes w).2.trace = w.trace ++ evs
      ∧ ∀ ev ∈ evs, ev.kind = Kind.log ∨ ev.kind = Kind.patchNode := by
  intro nodes
  induction nodes with
  | nil => intro w; exact ⟨[], by simp [nodeLoop], by simp⟩
  | cons n ns ih =>
    intro w
    have hstep : ∃ evs1, (processNode env k n w).2.trace = w.trace ++ evs1
        ∧ ∀ ev ∈ evs1, ev.kind = Kind.log ∨ ev.kind = Kind.patchNode := by
      rcases processNode_cases env k n w with ⟨_, _, ht⟩ | ⟨_, patch, _, h⟩
      · exact ⟨[], by simp [ht], by simp⟩
      · rcases h with ⟨err, _, _, ht⟩ | ⟨b, res, _, _, _, ht⟩
        · exact ⟨_, ht, by simp [Event.kind]⟩
        · exact ⟨_, ht, by simp [Event.kind]⟩
    obtain ⟨evs1, ht1, hk1⟩ := hstep
    cases hp : (processNode env k n w).1 with
    | none =>
      rw [nodeLoop_cons_none env k n ns w hp]
      obtain ⟨evs2, ht2, hk2⟩ := ih (processNode env k n w).2
      refine ⟨evs1 ++ evs2, by rw [ht2, ht1, List.append_assoc], ?_⟩
      intro ev hev
      rcases List.mem_append.1 hev with h | h
      · exact hk1 ev h
      · exact hk2 ev h
    | some e =>
      rw [nodeLoop_cons_some env k n ns w e hp]
      exact ⟨evs1, ht1, hk1⟩

/-- The calls of a loop in which some `PatchNode` call failed: the loop stopped
right there with that error wrapped, and it had patched, in order, the nodes
with a recognised key up to the failing one. -/
theorem nodeLoop_failed_patch (env : Env σ) (k : K8sUninstaller σ) :
    ∀ (nodes : List Node) (w : World σ), ∃ evs,
      (nodeLoop env k nodes w).2.trace = w.trace ++ evs
      ∧ ∀ name b e, Event.patchNode name b (some e) ∈ evs →
        ∃ pre node post, nodes = pre ++ node :: post ∧ node.Name = name
          ∧ hasOwned node = true
          ∧ (nodeLoop env k nodes w).1
              = some (GoError.wrapf "failed to patch node %s: %w" [name] e)
          ∧ evs.getLast? = some (Event.patchNode name b (some e))
          ∧ evs.filterMap Event.patchedNode
              = ((pre ++ [node]).filter hasOwned).map Node.Name := by
  intro nodes
  induction nodes with
  | nil => intro w; exact ⟨[], by simp [nodeLoop], by simp⟩
  | cons n ns ih =>
    intro w
    rcases processNode_cases env k n w with ⟨ho, hr, ht⟩ | ⟨ho, patch, _, h⟩
    · rw [nodeLoop_cons_none env k n ns w hr]
      obtain ⟨evs2, ht2, hf2⟩ := ih (processNode env k n w).2
      refine ⟨evs2, by rw [ht2, ht], ?_⟩
      intro name b e hmem
      obtain ⟨pre, node, post, hsplit, hname, hown, hres, hlast, hcalls⟩ := hf2 name b e hmem
      refine ⟨n :: pre, node, post, by rw [hsplit]; rfl, hname, hown, hres, hlast, ?_⟩
      rw [hcalls, List.cons_append, List.filter_cons_of_neg (by simp [ho])]
    · rcases h with ⟨err, _, hr, ht⟩ | ⟨b0, res, _, _, hr, ht⟩
      · rw [nodeLoop_cons_some env k n ns w _ hr]
        refine ⟨_, ht, ?_⟩
        intro name b e hmem
        simp at hmem
      · cases res with
        | none =>
          simp only [Option.map_none'] at hr
          rw [nodeLoop_cons_none env k n ns w hr]
          obtain ⟨evs2, ht2, hf2⟩ := ih (processNode env k n w).2
          refine ⟨[Event.log "  Removing annotations from node %s" [LogArg.str n.Name],
            Event.patchNode n.Name b0 none] ++ evs2, by rw [ht2, ht, List.append_assoc], ?_⟩
          intro name b e hmem
          have hmem2 : Event.patchNode name b (some e) ∈ evs2 := by
            simpa using hmem
          obtain ⟨pre, node, post, hsplit, hname, hown, hres, hlast, hcalls⟩ :=
            hf2 name b e hmem2
          refine ⟨n :: pre, node, post, by rw [hsplit]; rfl, hname, hown, hres, ?_, ?_⟩
          · rw [List.getLast?_append, hlast]
            rfl
          · rw [List.filterMap_append, hcalls, List.cons_append, List.filter_cons_of_pos ho]
            simp [Event.patchedNode, List.filterMap_cons]
        | some e0 =>
          simp only [Option.map_some'] at hr
          rw [nodeLoop_cons_some env k n ns w _ hr]
          refine ⟨_, ht, ?_⟩
          intro name b e hmem
          have hmem2 : name = n.Name ∧ b = b0 ∧ e = e0 := by
            simpa using hmem
          obtain ⟨rfl, rfl, rfl⟩ := hmem2
          refine ⟨[], n, ns, rfl, rfl, ho, rfl, by simp, ?_⟩
          simp [ho, Event.patchedNode, List.filterMap_cons]

/-! ## `cleanupNodeAnnotations` as a whole -/

theorem cleanup_of_list_ok (env : Env σ) (k : K8sUninstaller σ) (w : World σ)
    (nodes : List Node) (h : (k.client.ListNodes w.cluster).1 = Except.ok nodes) :
    cleanupNodeAnnotations env k w
      = nodeLoop env k nodes
          (callListNodes k (w.log "🔥 Cleaning up Cilium node annotations..." [])).2
    ∧ (callListNodes k (w.log "🔥 Cleaning up Cilium node annotations..." [])).2.trace
      = w.trace ++ [Event.log "🔥 Cleaning up Cilium node annotations..." [],
          Event.listNodes (Except.ok nodes)] := by
  have h1 : (callListNodes k (w.log "🔥 Cleaning up Cilium node annotations..." [])).1
      = Except.ok nodes := by
    simpa [callListNodes, log_cluster] using h
  constructor
  · rcases hc : callListNodes k (w.log "🔥 Cleaning up Cilium node annotations..." [])
      with ⟨r, w1⟩
    rw [hc] at h1
    simp only at h1
    subst h1
    simp only [cleanupNodeAnnotations, hc]
  · simp [callListNodes, log_trace, log_cluster, h]

theorem cleanup_of_list_error (env : Env σ) (k : K8sUninstaller σ) (w : World σ)
    (err : GoError) (h : (k.client.ListNodes w.cluster).1 = Except.error err) :
    (cleanupNodeAnnotations env k w).1 = some (GoError.wrapf "failed to list nodes: %w" [] err)
    ∧ (cleanupNodeAnnotations env k w).2.trace
      = w.trace ++ [Event.log "🔥 Cleaning up Cilium node annotations..." [],
          Event.listNodes (Except.error err)] := by
  have h1 : (callListNodes k (w.log "🔥 Cleaning up Cilium node annotations..." [])).1
      = Except.error err := by
    simpa [callListNodes, log_cluster] using h
  have h2 : (callListNodes k (w.log "🔥 Cleaning up Cilium node annotations..." [])).2.trace
      = w.trace ++ [Event.log "🔥 Cleaning up Cilium node annotations..." [],
          Event.listNodes (Except.error err)] := by
    simp [callListNodes, log_trace, log_cluster, h]
  rcases hc : callListNodes k (w.log "🔥 Cleaning up Cilium node annotations..." [])
    with ⟨r, w1⟩
  rw [hc] at h1 h2
  simp only at h1 h2
  subst h1
  simp only [cleanupNodeAnnotations, hc]
  exact ⟨trivial, h2⟩

/-- The cleanup adds log lines, one `ListNodes` call and `PatchNode` calls only;
when the listing or a patch failed it returns an error. -/
theorem cleanup_events (env : Env σ) (k : K8sUninstaller σ) (w : World σ) :
    ∃ evs, (cleanupNodeAnnotations env k w).2.trace = w.trace ++ evs
      ∧ (∀ ev ∈ evs, ev.kind = Kind.log ∨ ev.kind = Kind.listNodes ∨ ev.kind = Kind.patchNode)
      ∧ ((∃ e, Event.listNodes (Except.error e) ∈ evs) →
          ∃ err, (cleanupNodeAnnotations env k w).1 = some err)
      ∧ ((∃ name b e, Event.patchNode name b (some e) ∈ evs) →
          ∃ err, (cleanupNodeAnnotations env k w).1 = some err) := by
  cases hl : (k.client.ListNodes w.cluster).1 with
  | error err =>
    obtain ⟨hr, ht⟩ := cleanup_of_list_error env k w err hl
    refine ⟨_, ht, ?_, fun _ => ⟨_, hr⟩, fun _ => ⟨_, hr⟩⟩
    intro ev hev
    simp only [List.mem_cons, List.mem_singleton, List.not_mem_nil, or_false] at hev
    rcases hev with rfl | rfl
    · exact Or.inl rfl
    · exact Or.inr (Or.inl rfl)
  | ok nodes =>
    obtain ⟨hr, ht⟩ := cleanup_of_list_ok env k w nodes hl
    obtain ⟨evs, hte, hfail⟩ := nodeLoop_failed_patch env k nodes
      (callListNodes k (w.log "🔥 Cleaning up Cilium node annotations..." [])).2
    obtain ⟨evs2, hte2, hkinds⟩ := nodeLoop_kinds env k nodes
      (callListNodes k (w.log "🔥 Cleaning up Cilium node annotations..." [])).2
    have hsame : evs2 = evs := List.append_cancel_left (hte2.symm.trans hte)
    subst hsame
    rw [hr]
    refine ⟨[Event.log "🔥 Cleaning up Cilium node annotations..." [],
        Event.listNodes (Except.ok nodes)] ++ evs2, by rw [hte, ht, List.append_assoc], ?_, ?_, ?_⟩
    · intro ev hev
      rcases List.mem_append.1 hev with h | h
      · simp only [List.mem_cons, List.mem_singleton, List.not_mem_nil, or_false] at h
        rcases h with rfl | rfl
        · exact Or.inl rfl
        · exact Or.inr (Or.inl rfl)
      · rcases hkinds ev h with h1 | h1
        · exact Or.inl h1
        · exact Or.inr (Or.inr h1)
    · rintro ⟨e, he⟩
      rcases List.mem_append.1 he with h | h
      · simp at h
      · rcases hkinds _ h with h1 | h1 <;> simp [Event.kind] at h1
    · rintro ⟨name, b, e, he⟩
      rcases List.mem_append.1 he with h | h
      · simp at h
      · obtain ⟨_, _, _, _, _, _, hres, _⟩ := hfail name b e h
        exact ⟨_, hres⟩

/-! ## Claims on the node annotation cleanup -/

/-- Claim C3: with `json.Marshal` never failing on a patch document, a node the
cleanup reaches (the nodes before it went through without error) gets a
`PatchNode` call exactly when one of its annotation keys has a recognised
beginning; the call is then the only one for the node and its payload is the
marshalled patch that holds, up to order, one `remove` of
`/metadata/annotations/` followed by the escaped key for each such key and
nothing for any other key. -/
theorem C3_patch_removes_exactly_owned_keys (env : Env σ) (k : K8sUninstaller σ)
    (w w2 : World σ) (pre post : List Node) (node : Node)
    (hmarshal : ∀ p, ∃ b, env.jsonMarshal p = Except.ok b)
    (hlist : (k.client.ListNodes w.cluster).1 = Except.ok (pre ++ node :: post))
    (hpre : nodeLoop env k pre
      (callListNodes k (w.log "🔥 Cleaning up Cilium node annotations..." [])).2 = (none, w2)) :
    (cleanupNodeAnnotations env k w
      = match (processNode env k node w2).1 with
        | some e => (some e, (processNode env k node w2).2)
        | none => nodeLoop env k post (processNode env k node w2).2)
    ∧ ((∃ name b res, Event.patchNode name b res ∈ events w2 (processNode env k node w2).2)
        ↔ ∃ key ∈ node.Annotations.keys,
            HasPrefix key "io.cilium.".toList = true ∨ HasPrefix key "cilium.io/".toList = true)
    ∧ (∀ name b res, Event.patchNode name b res ∈ events w2 (processNode env k node w2).2 →
        name = node.Name
        ∧ countKind Kind.patchNode (events w2 (processNode env k node w2).2) = 1
        ∧ ∃ patch : List JSONPatch, env.jsonMarshal patch = Except.ok b
          ∧ patch.Perm ((node.Annotations.keys.filter ownedKey).map removeOp)
          ∧ (∀ op ∈ patch, op.OP = "remove".toList ∧ ∃ key ∈ node.Annotations.keys,
              ownedKey key = true
              ∧ op.Path = "/metadata/annotations/".toList ++ escapeKey key)
          ∧ patch.length = (node.Annotations.keys.filter ownedKey).length) := by
  have hown : hasOwned node = true ↔ ∃ key ∈ node.Annotations.keys,
      HasPrefix key "io.cilium.".toList = true ∨ HasPrefix key "cilium.io/".toList = true := by
    simp [hasOwned, ownedKey]
  refine ⟨?_, ?_, ?_⟩
  · rw [(cleanup_of_list_ok env k w _ hlist).1, nodeLoop_append env k _ pre _ w2 hpre]
    cases hp : (processNode env k node w2).1 with
    | none => rw [nodeLoop_cons_none env k node post w2 hp]
    | some e => rw [nodeLoop_cons_some env k node post w2 e hp]
  · rw [← hown]
    rcases processNode_cases env k node w2 with ⟨ho, _, ht⟩ | ⟨ho, patch, _, h⟩
    · have hev : events w2 (processNode env k node w2).2 = [] :=
        events_of_trace (by rw [ht, List.append_nil])
      rw [hev, ho]
      simp
    · rcases h with ⟨err, hm, _, _⟩ | ⟨b, res, _, _, _, ht⟩
      · obtain ⟨b, hb⟩ := hmarshal patch
        rw [hm] at hb
        cases hb
      · rw [events_of_trace ht]
        exact ⟨fun _ => ho, fun _ => ⟨node.Name, b, res, by simp⟩⟩
  · intro name b res hmem
    rcases processNode_cases env k node w2 with ⟨ho, _, ht⟩ | ⟨ho, patch, hperm, h⟩
    · have hev : events w2 (processNode env k node w2).2 = [] :=
        events_of_trace (by rw [ht, List.append_nil])
      rw [hev] at hmem
      simp at hmem
    · rcases h with ⟨err, hm, _, _⟩ | ⟨b0, res0, hm, _, _, ht⟩
      · obtain ⟨b1, hb⟩ := hmarshal patch
        rw [hm] at hb
        cases hb
      · rw [events_of_trace ht] at hmem ⊢
        have h3 : name = node.Name ∧ b = b0 ∧ res = res0 := by simpa using hmem
        obtain ⟨rfl, rfl, rfl⟩ := h3
        refine ⟨rfl, by simp [countKind, Event.kind], patch, hm, hperm, ?_, ?_⟩
        · intro op hop
          have hop2 := (hperm.mem_iff).1 hop
          obtain ⟨key, hkey, rfl⟩ := List.mem_map.1 hop2
          obtain ⟨hk1, hk2⟩ := List.mem_filter.1 hkey
          exact ⟨rfl, key, hk1, hk2, rfl⟩
        · rw [hperm.length_eq, List.length_map]

/-- Witness of C3: on the node annotated with `cilium.io/a`, `io.cilium.b` and
`other` the patch has exactly the two remove operations of the first two keys,
and the node without recognised key that follows gets no call. -/
theorem C3_patch_witness :
    (∀ p, ∃ b, (scriptedEnv allOk awsKey).jsonMarshal p = Except.ok b)
    ∧ events (callListNodes (scriptedUninstaller allOk false)
          (world0.log "🔥 Cleaning up Cilium node annotations..." [])).2
        (processNode (scriptedEnv allOk awsKey) (scriptedUninstaller allOk false) nodeA
          (callListNodes (scriptedUninstaller allOk false)
            (world0.log "🔥 Cleaning up Cilium node annotations..." [])).2).2
      = [Event.log "  Removing annotations from node %s" [LogArg.str nodeA.Name],
         Event.patchNode nodeA.Name
          (renderPatch [removeOp "io.cilium.b".toList, removeOp "cilium.io/a".toList]) none]
    ∧ ((∃ name b res, Event.patchNode name b res ∈
          events (callListNodes (scriptedUninstaller allOk false)
              (world0.log "🔥 Cleaning up Cilium node annotations..." [])).2
            (processNode (scriptedEnv allOk awsKey) (scriptedUninstaller allOk false) nodeA
              (callListNodes (scriptedUninstaller allOk false)
                (world0.log "🔥 Cleaning up Cilium node annotations..." [])).2).2)
        ↔ ∃ key ∈ nodeA.Annotations.keys,
            HasPrefix key "io.cilium.".toList = true
              ∨ HasPrefix key "cilium.io/".toList = true) :=
  ⟨fun p => ⟨renderPatch p, rfl⟩, by decide,
   (C3_patch_removes_exactly_owned_keys (scriptedEnv allOk awsKey)
      (scriptedUninstaller allOk false) world0 _ [] [nodeB, nodeC] nodeA
      (fun p => ⟨renderPatch p, rfl⟩) rfl rfl).2.1⟩

/-- Claim C9: when a `PatchNode` call fails, `cleanupNodeAnnotations` returns
that error (wrapped) at once: the failing call is the last event of the run,
and the `PatchNode` calls issued are, in list order and one per node, those of
the nodes with a recognised key up to and including the failing node; no node
after it is patched. -/
theorem C9_failed_patch_stops_the_loop (env : Env σ) (k : K8sUninstaller σ) (w : World σ)
    (nodes : List Node) (name b : GoString) (e : GoError)
    (hlist : (k.client.ListNodes w.cluster).1 = Except.ok nodes)
    (hfail : Event.patchNode name b (some e) ∈ events w (cleanupNodeAnnotations env k w).2) :
    ∃ pre node post, nodes = pre ++ node :: post ∧ node.Name = name
      ∧ hasOwned node = true
      ∧ (cleanupNodeAnnotations env k w).1
          = some (GoError.wrapf "failed to patch node %s: %w" [name] e)
      ∧ (events w (cleanupNodeAnnotations env k w).2).getLast?
          = some (Event.patchNode name b (some e))
      ∧ (events w (cleanupNodeAnnotations env k w).2).filterMap Event.patchedNode
          = ((pre ++ [node]).filter hasOwned).map Node.Name := by
  obtain ⟨hr, ht⟩ := cleanup_of_list_ok env k w nodes hlist
  obtain ⟨evs, hte, hf⟩ := nodeLoop_failed_patch env k nodes
    (callListNodes k (w.log "🔥 Cleaning up Cilium node annotations..." [])).2
  have hev : events w (cleanupNodeAnnotations env k w).2
      = [Event.log "🔥 Cleaning up Cilium node annotations..." [],
          Event.listNodes (Except.ok nodes)] ++ evs :=
    events_of_trace (by rw [hr, hte, ht, List.append_assoc])
  rw [hev] at hfail ⊢
  have hmem : Event.patchNode name b (some e) ∈ evs := by simpa using hfail
  obtain ⟨pre, node, post, hsplit, hname, hown, hres, hlast, hcalls⟩ := hf name b e hmem
  refine ⟨pre, node, post, hsplit, hname, hown, by rw [hr]; exact hres, ?_, ?_⟩
  · rw [List.getLast?_append, hlast]
    rfl
  · rw [List.filterMap_append, hcalls]
    simp [Event.patchedNode, List.filterMap_cons]

/-- Witness of C9: of four nodes, the third one's patch is refused; the first
and the third are patched, the fourth (which has a recognised key) is not. -/
theorem C9_failed_patch_witness :
    (events world0 (cleanupNodeAnnotations (scriptedEnv refusedC awsKey)
        (scriptedUninstaller refusedC false) world0).2).filterMap Event.patchedNode
      = ["node-a".toList, "node-c".toList]
    ∧ hasOwned nodeD = true
    ∧ ∃ pre node post, [nodeA, nodeB, nodeC, nodeD] = pre ++ node :: post
      ∧ node.Name = "node-c".toList
      ∧ hasOwned node = true
      ∧ (cleanupNodeAnnotations (scriptedEnv refusedC awsKey)
          (scriptedUninstaller refusedC false) world0).1
          = some (GoError.wrapf "failed to patch node %s: %w" ["node-c".toList]
              (GoError.base "refused".toList))
      ∧ (events world0 (cleanupNodeAnnotations (scriptedEnv refusedC awsKey)
          (scriptedUninstaller refusedC false) world0).2).getLast?
          = some (Event.patchNode "node-c".toList
              (renderPatch [removeOp "io.cilium.x".toList])
              (some (GoError.base "refused".toList)))
      ∧ (events world0 (cleanupNodeAnnotations (scriptedEnv refusedC awsKey)
          (scriptedUninstaller refusedC false) world0).2).filterMap Event.patchedNode
          = ((pre ++ [node]).filter hasOwned).map Node.Name :=
  ⟨by decide, by decide,
   C9_failed_patch_stops_the_loop (scriptedEnv refusedC awsKey)
     (scriptedUninstaller refusedC false) world0 [nodeA, nodeB, nodeC, nodeD]
     "node-c".toList (renderPatch [removeOp "io.cilium.x".toList])
     (GoError.base "refused".toList) rfl (by decide)⟩

/-! ## The shape of a run of `UninstallWithHelm` -/

/-- The poll adds namespace lookups and sleeps only. -/
theorem pollNamespace_kinds (env : Env σ) (k : K8sUninstaller σ) :
    ∀ (fuel : Nat) (w w1 : World σ), pollNamespace env k fuel w = some w1 →
      ∃ evs, w1.trace = w.trace ++ evs
        ∧ ∀ ev ∈ evs, ev.kind ∈ [Kind.getNamespace, Kind.sleep] := by
  intro fuel
  induction fuel with
  | zero => intro w w1 h; simp [pollNamespace] at h
  | succ f ih =>
    intro w w1 h
    cases h0 : (k.client.GetNamespace w.cluster k.params.TestNamespace).1 with
    | none =>
      simp only [pollNamespace, callGetNamespace, h0] at h
      obtain ⟨evs, ht, hk⟩ := ih _ _ h
      refine ⟨[Event.getNamespace k.params.TestNamespace none,
        Event.sleep env.WaitRetryInterval] ++ evs, ?_, ?_⟩
      · rw [ht]
        simp [World.sleep, World.emit]
      · intro ev hev
        rcases List.mem_append.1 hev with h1 | h1
        · simp only [List.mem_cons, List.mem_singleton, List.not_mem_nil, or_false] at h1
          rcases h1 with rfl | rfl <;> simp [Event.kind]
        · exact hk ev h1
    | some e =>
      simp only [pollNamespace, callGetNamespace, h0, Option.some.injEq] at h
      subst h
      exact ⟨[Event.getNamespace k.params.TestNamespace (some e)], rfl, by simp [Event.kind]⟩

/-- The reaping of the test namespace adds log lines, the two deletions, lookups
and sleeps only. -/
theorem DeleteTestNamespace_kinds (env : Env σ) (k : K8sUninstaller σ) (fuel : Nat)
    (w w1 : World σ) (h : DeleteTestNamespace env k fuel w = some w1) :
    ∃ evs, w1.trace = w.trace ++ evs
      ∧ ∀ ev ∈ evs, ev.kind ∈ [Kind.log, Kind.deletePodCollection, Kind.deleteNamespace,
          Kind.getNamespace, Kind.sleep] := by
  cases hw : k.params.Wait with
  | false =>
    simp only [DeleteTestNamespace, hw, Bool.false_eq_true, if_false, Option.some.injEq] at h
    subst h
    refine ⟨_, deletes_trace k w, ?_⟩
    intro ev hev
    simp only [List.mem_cons, List.mem_singleton, List.not_mem_nil, or_false] at hev
    rcases hev with rfl | rfl | rfl | rfl <;> simp [Event.kind]
  | true =>
    obtain ⟨w0, hw0, _, r1, r2, htr⟩ := poll_start k w
    have hD : DeleteTestNamespace env k fuel w = pollNamespace env k fuel w0 := by
      simp only [DeleteTestNamespace, hw, if_true, hw0]
    rw [hD] at h
    obtain ⟨evs, ht, hk⟩ := pollNamespace_kinds env k fuel w0 w1 h
    refine ⟨[Event.log "🔥 Deleting pods in %s namespace..." [LogArg.str k.params.TestNamespace],
        Event.deletePodCollection k.params.TestNamespace r1,
        Event.log "🔥 Deleting %s namespace..." [LogArg.str k.params.TestNamespace],
        Event.deleteNamespace k.params.TestNamespace r2,
        Event.log "⌛ Waiting for %s namespace to be terminated..."
          [LogArg.str k.params.TestNamespace]] ++ evs,
      by rw [ht, htr, List.append_assoc], ?_⟩
    intro ev hev
    rcases List.mem_append.1 hev with h1 | h1
    · simp only [List.mem_cons, List.mem_singleton, List.not_mem_nil, or_false] at h1
      rcases h1 with rfl | rfl | rfl | rfl | rfl <;> simp [Event.kind]
    · have := hk ev h1
      simp only [List.mem_cons, List.mem_singleton, List.not_mem_nil, or_false] at this ⊢
      rcases this with h2 | h2 <;> simp [h2]

/-- The rollback logs, issues one `PatchDaemonSet` call with the bytes of line
143 and returns what the call returned; a failure adds one more log line. -/
theorem undo_events (env : Env σ) (k : K8sUninstaller σ) (w : World σ) :
    ∃ res tail, (undoAwsNodeNodeSelector env k w).1 = res
      ∧ res = (k.client.PatchDaemonSet w.cluster env.AwsNodeDaemonSetNamespace
          env.AwsNodeDaemonSetName (undoPatchBytes env.AwsNodeDaemonSetNodeSelectorKey)).1
      ∧ (undoAwsNodeNodeSelector env k w).2.trace = w.trace ++
          [Event.log "⏪ Undoing the changes to the %q DaemonSet..."
             [LogArg.str env.AwsNodeDaemonSetName],
           Event.patchDaemonSet env.AwsNodeDaemonSetNamespace env.AwsNodeDaemonSetName
             (undoPatchBytes env.AwsNodeDaemonSetNodeSelectorKey) res] ++ tail
      ∧ ∀ ev ∈ tail, ev.kind = Kind.log := by
  cases hp : (k.client.PatchDaemonSet w.cluster env.AwsNodeDaemonSetNamespace
      env.AwsNodeDaemonSetName (undoPatchBytes env.AwsNodeDaemonSetNodeSelectorKey)).1 with
  | none =>
    refine ⟨none, [], ?_, rfl, ?_, by simp⟩
    · simp only [undoAwsNodeNodeSelector, callPatchDaemonSet, log_cluster, hp]
    · simp only [undoAwsNodeNodeSelector, callPatchDaemonSet, log_cluster, hp, log_trace]
      simp
  | some e =>
    refine ⟨some e, [Event.log
      "❌ Failed to patch the %q DaemonSet, please remove it's node selector manually"
      [LogArg.str env.AwsNodeDaemonSetName]], ?_, rfl, ?_, by simp [Event.kind]⟩
    · simp only [undoAwsNodeNodeSelector, callPatchDaemonSet, log_cluster, hp]
    · simp only [undoAwsNodeNodeSelector, callPatchDaemonSet, log_cluster, hp, log_trace]
      simp

theorem callHelmRun_eq (env : Env σ) (w w2 : World σ) (c : HelmUninstall) (rel : GoString)
    (r : Option GoError) (h : callHelmRun env w c rel = (r, w2)) :
    w2.trace = w.trace ++ [Event.helmRun c rel r] := by
  simp only [callHelmRun, Prod.mk.injEq] at h
  obtain ⟨h1, h2⟩ := h
  subst h1 h2
  rfl

theorem callGetDaemonSet_eq (k : K8sUninstaller σ) (w w2 : World σ) (ns name : GoString)
    (r : Option GoError) (h : callGetDaemonSet k w ns name = (r, w2)) :
    w2.trace = w.trace ++ [Event.getDaemonSet ns name r] := by
  simp only [callGetDaemonSet, Prod.mk.injEq] at h
  obtain ⟨h1, h2⟩ := h
  subst h1 h2
  rfl

/-- The events of a run whose reaping phase ended in `w1`: the reaping, the
release uninstall and, when that succeeded, the cleanup, at most one line on
its failure, the lookup of the marker DaemonSet and, when that succeeded, the
rollback. -/
theorem UninstallWithHelm_shape (env : Env σ) (k : K8sUninstaller σ) (fuel : Nat)
    (w w1 : World σ) (h : DeleteTestNamespace env k fuel w = some w1) :
    ∃ r w2 reap, UninstallWithHelm env k fuel w = some (r, w2)
      ∧ (∀ ev ∈ reap, ev.kind ∈ [Kind.log, Kind.deletePodCollection, Kind.deleteNamespace,
          Kind.getNamespace, Kind.sleep])
      ∧ ((∃ e, r = some e ∧ events w w2 = reap ++
            [Event.helmRun (helmClient k.params) k.params.HelmReleaseName (some e)])
        ∨ (∃ cl lg,
            (∀ ev ∈ cl, ev.kind = Kind.log ∨ ev.kind = Kind.listNodes ∨ ev.kind = Kind.patchNode)
            ∧ (lg = [] ∨ ∃ err, lg =
                [Event.log "Failed to clean up node annotations: %v" [LogArg.err err]])
            ∧ (((∃ e, Event.listNodes (Except.error e) ∈ cl)
                  ∨ (∃ name b e, Event.patchNode name b (some e) ∈ cl)) →
                ∃ err, lg =
                  [Event.log "Failed to clean up node annotations: %v" [LogArg.err err]])
            ∧ ((∃ e, r = none ∧ events w w2 = reap ++
                  [Event.helmRun (helmClient k.params) k.params.HelmReleaseName none]
                  ++ cl ++ lg ++
                  [Event.getDaemonSet env.AwsNodeDaemonSetNamespace env.AwsNodeDaemonSetName
                    (some e)])
              ∨ (∃ tail, (∀ ev ∈ tail, ev.kind = Kind.log) ∧ events w w2 = reap ++
                  [Event.helmRun (helmClient k.params) k.params.HelmReleaseName none]
                  ++ cl ++ lg ++
                  [Event.getDaemonSet env.AwsNodeDaemonSetNamespace env.AwsNodeDaemonSetName
                    none,
                   Event.log "⏪ Undoing the changes to the %q DaemonSet..."
                     [LogArg.str env.AwsNodeDaemonSetName],
                   Event.patchDaemonSet env.AwsNodeDaemonSetNamespace
                     env.AwsNodeDaemonSetName
                     (undoPatchBytes env.AwsNodeDaemonSetNodeSelectorKey) r] ++ tail)))) := by
  obtain ⟨reap, hreap, hrk⟩ := DeleteTestNamespace_kinds env k fuel w w1 h
  rcases hh : callHelmRun env w1 (helmClient k.params) k.params.HelmReleaseName with ⟨rh, wh⟩
  have hth := callHelmRun_eq env w1 wh _ _ rh hh
  cases rh with
  | some e =>
    refine ⟨some e, wh, reap, by simp only [UninstallWithHelm, h, hh], hrk, Or.inl ⟨e, rfl, ?_⟩⟩
    exact events_of_trace (by rw [hth, hreap, List.append_assoc])
  | none =>
    obtain ⟨cl, htc, hkc, hf1, hf2⟩ := cleanup_events env k wh
    -- the world after the optional line on a failed cleanup
    have hlog : ∃ wl lg,
        (match cleanupNodeAnnotations env k wh with
          | (some err, w) => w.log "Failed to clean up node annotations: %v" [LogArg.err err]
          | (none, w) => w) = wl
        ∧ wl.trace = wh.trace ++ cl ++ lg
        ∧ (lg = [] ∨ ∃ err, lg =
            [Event.log "Failed to clean up node annotations: %v" [LogArg.err err]])
        ∧ ((∃ err, (cleanupNodeAnnotations env k wh).1 = some err) → ∃ err, lg =
            [Event.log "Failed to clean up node annotations: %v" [LogArg.err err]]) := by
      rcases hc : cleanupNodeAnnotations env k wh with ⟨rc, wc⟩
      rw [hc] at htc
      cases rc with
      | none =>
        refine ⟨wc, [], rfl, by simpa using htc, Or.inl rfl, ?_⟩
        rintro ⟨err, herr⟩
        simp at herr
      | some err =>
        refine ⟨_, [Event.log "Failed to clean up node annotations: %v" [LogArg.err err]],
          rfl, ?_, Or.inr ⟨err, rfl⟩, fun _ => ⟨err, rfl⟩⟩
        simp only [log_trace]
        simp only at htc
        rw [htc]
    obtain ⟨wl, lg, hwl, htl, hlg, hlgf⟩ := hlog
    have hfail : ((∃ e, Event.listNodes (Except.error e) ∈ cl)
        ∨ (∃ name b e, Event.patchNode name b (some e) ∈ cl)) →
        ∃ err, lg = [Event.log "Failed to clean up node annotations: %v" [LogArg.err err]] := by
      intro hx
      rcases hx with hx | hx
      · exact hlgf (hf1 hx)
      · exact hlgf (hf2 hx)
    rcases hd : callGetDaemonSet k wl env.AwsNodeDaemonSetNamespace env.AwsNodeDaemonSetName
      with ⟨rd, wd⟩
    have htd := callGetDaemonSet_eq k wl wd _ _ rd hd
    cases rd with
    | some e =>
      refine ⟨none, wd, reap, ?_, hrk, Or.inr ⟨cl, lg, hkc, hlg, hfail, Or.inl ⟨e, rfl, ?_⟩⟩⟩
      · simp only [UninstallWithHelm, h, hh, hwl, hd]
      · exact events_of_trace (by rw [htd, htl, hth, hreap]; simp)
    | none =>
      obtain ⟨res, tail, hres, _, htu, hktail⟩ := undo_events env k wd
      refine ⟨res, (undoAwsNodeNodeSelector env k wd).2, reap, ?_, hrk,
        Or.inr ⟨cl, lg, hkc, hlg, hfail, Or.inr ⟨tail, hktail, ?_⟩⟩⟩
      · simp only [UninstallWithHelm, h, hh, hwl, hd, ← hres]
      · exact events_of_trace (by rw [htu, htd, htl, hth, hreap]; simp)

/-! ## Claims on the failure policy of `UninstallWithHelm` -/

/-- Claim C2: once the reaping of the test namespace has ended, the run returns;
if the release uninstall returned an error `e`, the run returns exactly `e`,
the failing call is its last event, and it made no `ListNodes`, `PatchNode`,
`GetDaemonSet` or `PatchDaemonSet` call. -/
theorem C2_release_failure_aborts (env : Env σ) (k : K8sUninstaller σ) (fuel : Nat)
    (w w1 : World σ) (h : DeleteTestNamespace env k fuel w = some w1) :
    ∃ r w2, UninstallWithHelm env k fuel w = some (r, w2)
      ∧ ∀ c rel e, Event.helmRun c rel (some e) ∈ events w w2 →
          r = some e
          ∧ (events w w2).getLast? = some (Event.helmRun c rel (some e))
          ∧ ∀ ev ∈ events w w2, ev.kind ≠ Kind.listNodes ∧ ev.kind ≠ Kind.patchNode
              ∧ ev.kind ≠ Kind.getDaemonSet ∧ ev.kind ≠ Kind.patchDaemonSet := by
  obtain ⟨r, w2, reap, hrun, hrk, hshape⟩ := UninstallWithHelm_shape env k fuel w w1 h
  refine ⟨r, w2, hrun, ?_⟩
  intro c rel e hmem
  have hreap : ∀ c rel e, Event.helmRun c rel e ∉ reap := by
    intro c rel e hx
    have := hrk _ hx
    simp [Event.kind] at this
  rcases hshape with ⟨e0, hr, hev⟩ | ⟨cl, lg, hkc, hlg, _, hrest⟩
  · rw [hev] at hmem ⊢
    rcases List.mem_append.1 hmem with hx | hx
    · exact absurd hx (hreap _ _ _)
    · have hx2 : c = helmClient k.params ∧ rel = k.params.HelmReleaseName ∧ e = e0 := by
        simpa using hx
      obtain ⟨rfl, rfl, rfl⟩ := hx2
      refine ⟨hr, by simp, ?_⟩
      intro ev hev2
      rcases List.mem_append.1 hev2 with hy | hy
      · have := hrk _ hy
        simp only [List.mem_cons, List.mem_singleton, List.not_mem_nil, or_false] at this
        rcases this with h1 | h1 | h1 | h1 | h1 <;> simp [h1]
      · simp only [List.mem_singleton] at hy
        subst hy
        simp [Event.kind]
  · exfalso
    have hcl : Event.helmRun c rel (some e) ∉ cl := by
      intro hx
      rcases hkc _ hx with h1 | h1 | h1 <;> simp [Event.kind] at h1
    have hlg2 : Event.helmRun c rel (some e) ∉ lg := by
      rcases hlg with rfl | ⟨err, rfl⟩ <;> simp
    rcases hrest with ⟨e1, _, hev⟩ | ⟨tail, hkt, hev⟩
    · rw [hev] at hmem
      simp only [List.mem_append, List.mem_singleton] at hmem
      rcases hmem with (((hx | hx) | hx) | hx) | hx
      · exact hreap _ _ _ hx
      · simp at hx
      · exact hcl hx
      · exact hlg2 hx
      · simp at hx
    · rw [hev] at hmem
      simp only [List.mem_append, List.mem_singleton] at hmem
      rcases hmem with ((((hx | hx) | hx) | hx) | hx) | hx
      · exact hreap _ _ _ hx
      · simp at hx
      · exact hcl hx
      · exact hlg2 hx
      · simp at hx
      · have := hkt _ hx
        simp [Event.kind] at this

/-- Witness of C2: the release uninstall fails; the run returns that error
after the four events of the reaping and the failing call. -/
theorem C2_release_failure_witness :
    ∃ r w2, UninstallWithHelm (scriptedEnv helmFails awsKey)
        (scriptedUninstaller helmFails false) 0 world0 = some (r, w2)
      ∧ Event.helmRun (helmClient (scriptedUninstaller helmFails false).params)
          "cilium".toList (some (GoError.base "release not found".toList)) ∈ events world0 w2
      ∧ r = some (GoError.base "release not found".toList)
      ∧ (events world0 w2).map Event.kind
          = [Kind.log, Kind.deletePodCollection, Kind.log, Kind.deleteNamespace, Kind.helmRun] := by
  obtain ⟨r, w2, hrun, himp⟩ := C2_release_failure_aborts (scriptedEnv helmFails awsKey)
    (scriptedUninstaller helmFails false) 0 world0 _ rfl
  have hval : UninstallWithHelm (scriptedEnv helmFails awsKey)
      (scriptedUninstaller helmFails false) 0 world0
      = some ((UninstallWithHelm (scriptedEnv helmFails awsKey)
          (scriptedUninstaller helmFails false) 0 world0).get (by decide)) := by simp
  obtain ⟨rfl, rfl⟩ := Prod.mk.inj (Option.some.inj (hrun.symm.trans hval))
  have hmem : Event.helmRun (helmClient (scriptedUninstaller helmFails false).params)
      "cilium".toList (some (GoError.base "release not found".toList))
      ∈ events world0 ((UninstallWithHelm (scriptedEnv helmFails awsKey)
          (scriptedUninstaller helmFails false) 0 world0).get (by decide)).2 := by decide
  exact ⟨_, _, hval, hmem, (himp _ _ _ hmem).1, by decide⟩

theorem ofKind_append (kd : Kind) (a b : List Event) :
    ofKind kd (a ++ b) = ofKind kd a ++ ofKind kd b := by
  simp [ofKind, List.filter_append]

theorem mem_ofKind (kd : Kind) (evs : List Event) (ev : Event) :
    ev ∈ ofKind kd evs ↔ ev ∈ evs ∧ ev.kind = kd := by
  simp [ofKind, List.mem_filter]

theorem ofKind_eq_nil (kd : Kind) (evs : List Event) (h : ∀ ev ∈ evs, ev.kind ≠ kd) :
    ofKind kd evs = [] := by
  simp only [ofKind, List.filter_eq_nil_iff]
  intro ev hev
  simpa using h ev hev

/-- The calls of a run whose reaping phase ended, kind by kind: one release
uninstall; when it failed nothing else and its error returned; when it
succeeded one lookup of the marker DaemonSet, a logged line for a failed
cleanup, and either a failed lookup, no rollback and a nil result, or a
successful lookup and one rollback call whose result is returned. -/
theorem UninstallWithHelm_calls (env : Env σ) (k : K8sUninstaller σ) (fuel : Nat)
    (w w1 : World σ) (h : DeleteTestNamespace env k fuel w = some w1) :
    ∃ r w2, UninstallWithHelm env k fuel w = some (r, w2)
      ∧ ((∃ e, r = some e
            ∧ ofKind Kind.helmRun (events w w2)
                = [Event.helmRun (helmClient k.params) k.params.HelmReleaseName (some e)]
            ∧ ofKind Kind.listNodes (events w w2) = []
            ∧ ofKind Kind.patchNode (events w w2) = []
            ∧ ofKind Kind.getDaemonSet (events w w2) = []
            ∧ ofKind Kind.patchDaemonSet (events w w2) = [])
        ∨ (ofKind Kind.helmRun (events w w2)
              = [Event.helmRun (helmClient k.params) k.params.HelmReleaseName none]
            ∧ (((∃ e, Event.listNodes (Except.error e) ∈ events w w2)
                  ∨ (∃ name b e, Event.patchNode name b (some e) ∈ events w w2)) →
                ∃ err, Event.log "Failed to clean up node annotations: %v" [LogArg.err err]
                  ∈ events w w2)
            ∧ ((∃ e, r = none
                  ∧ ofKind Kind.getDaemonSet (events w w2)
                      = [Event.getDaemonSet env.AwsNodeDaemonSetNamespace
                          env.AwsNodeDaemonSetName (some e)]
                  ∧ ofKind Kind.patchDaemonSet (events w w2) = [])
              ∨ (ofKind Kind.getDaemonSet (events w w2)
                      = [Event.getDaemonSet env.AwsNodeDaemonSetNamespace
                          env.AwsNodeDaemonSetName none]
                  ∧ ofKind Kind.patchDaemonSet (events w w2)
                      = [Event.patchDaemonSet env.AwsNodeDaemonSetNamespace
                          env.AwsNodeDaemonSetName
                          (undoPatchBytes env.AwsNodeDaemonSetNodeSelectorKey) r])))) := by
  obtain ⟨r, w2, reap, hrun, hrk, hshape⟩ := UninstallWithHelm_shape env k fuel w w1 h
  refine ⟨r, w2, hrun, ?_⟩
  have hreap : ∀ kd, kd ∉ [Kind.log, Kind.deletePodCollection, Kind.deleteNamespace,
      Kind.getNamespace, Kind.sleep] → ofKind kd reap = [] := by
    intro kd hkd
    apply ofKind_eq_nil
    intro ev hev heq
    exact hkd (heq ▸ hrk ev hev)
  rcases hshape with ⟨e0, hr, hev⟩ | ⟨cl, lg, hkc, hlg, hfail, hrest⟩
  · left
    refine ⟨e0, hr, ?_, ?_, ?_, ?_, ?_⟩ <;>
      · rw [hev, ofKind_append, hreap _ (by decide)]
        simp [ofKind, Event.kind]
  · right
    have hcl : ∀ kd, kd ∉ [Kind.log, Kind.listNodes, Kind.patchNode] → ofKind kd cl = [] := by
      intro kd hkd
      apply ofKind_eq_nil
      intro ev hev heq
      apply hkd
      rcases hkc ev hev with h1 | h1 | h1 <;> simp [← heq, h1]
    have hlgk : ∀ kd, kd ≠ Kind.log → ofKind kd lg = [] := by
      intro kd hkd
      apply ofKind_eq_nil
      intro ev hev heq
      apply hkd
      rcases hlg with rfl | ⟨err, rfl⟩
      · simp at hev
      · simp only [List.mem_singleton] at hev
        subst hev
        exact heq.symm
    have hevid : ∀ evs2 : List Event,
        (events w w2 = reap ++
            [Event.helmRun (helmClient k.params) k.params.HelmReleaseName none]
            ++ cl ++ lg ++ evs2) →
        (∀ ev ∈ evs2, ev.kind ≠ Kind.listNodes ∧ ev.kind ≠ Kind.patchNode) →
        ((∃ e, Event.listNodes (Except.error e) ∈ events w w2)
          ∨ (∃ name b e, Event.patchNode name b (some e) ∈ events w w2)) →
        ∃ err, Event.log "Failed to clean up node annotations: %v" [LogArg.err err]
          ∈ events w w2 := by
      intro evs2 hev hk2 hx
      have hin : ∀ ev : Event, ev ∈ events w w2 →
          (ev.kind = Kind.listNodes ∨ ev.kind = Kind.patchNode) → ev ∈ cl := by
        intro ev hmem hkind
        rw [hev] at hmem
        simp only [List.mem_append, List.mem_singleton] at hmem
        rcases hmem with (((hm | hm) | hm) | hm) | hm
        · have := hrk ev hm
          rcases hkind with h1 | h1 <;> simp [h1] at this
        · subst hm
          rcases hkind with h1 | h1 <;> simp [Event.kind] at h1
        · exact hm
        · exfalso
          rcases hlg with rfl | ⟨err, rfl⟩
          · simp at hm
          · simp only [List.mem_singleton] at hm
            subst hm
            rcases hkind with h1 | h1 <;> simp [Event.kind] at h1
        · exfalso
          have := hk2 ev hm
          rcases hkind with h1 | h1
          · exact this.1 h1
          · exact this.2 h1
      have hcase : (∃ e, Event.listNodes (Except.error e) ∈ cl)
          ∨ (∃ name b e, Event.patchNode name b (some e) ∈ cl) := by
        rcases hx with ⟨e, he⟩ | ⟨name, b, e, he⟩
        · exact Or.inl ⟨e, hin _ he (Or.inl rfl)⟩
        · exact Or.inr ⟨name, b, e, hin _ he (Or.inr rfl)⟩
      obtain ⟨err, hlgeq⟩ := hfail hcase
      refine ⟨err, ?_⟩
      rw [hev, hlgeq]
      simp
    rcases hrest with ⟨e1, hr, hev⟩ | ⟨tail, hkt, hev⟩
    · refine ⟨?_, hevid _ hev (by simp [Event.kind]), Or.inl ⟨e1, hr, ?_, ?_⟩⟩ <;>
        · rw [hev]
          simp only [ofKind_append]
          rw [hreap _ (by decide), hcl _ (by decide), hlgk _ (by decide)]
          simp [ofKind, Event.kind]
    · have htail : ∀ kd, kd ≠ Kind.log → ofKind kd tail = [] := by
        intro kd hkd
        apply ofKind_eq_nil
        intro ev hev2 heq
        exact hkd (heq ▸ hkt ev hev2)
      have hk2 : ∀ ev ∈
          [Event.getDaemonSet env.AwsNodeDaemonSetNamespace env.AwsNodeDaemonSetName none,
           Event.log "⏪ Undoing the changes to the %q DaemonSet..."
             [LogArg.str env.AwsNodeDaemonSetName],
           Event.patchDaemonSet env.AwsNodeDaemonSetNamespace env.AwsNodeDaemonSetName
             (undoPatchBytes env.AwsNodeDaemonSetNodeSelectorKey) r] ++ tail,
          ev.kind ≠ Kind.listNodes ∧ ev.kind ≠ Kind.patchNode := by
        intro ev hm
        rcases List.mem_append.1 hm with h1 | h1
        · simp only [List.mem_cons, List.mem_singleton, List.not_mem_nil, or_false] at h1
          rcases h1 with rfl | rfl | rfl <;> simp [Event.kind]
        · rw [hkt ev h1]
          simp
      refine ⟨?_, hevid _ (by rw [hev]; simp) hk2, Or.inr ⟨?_, ?_⟩⟩ <;>
        · rw [hev]
          simp only [ofKind_append]
          rw [hreap _ (by decide), hcl _ (by decide), hlgk _ (by decide),
            htail _ (by decide)]
          simp [ofKind, Event.kind]

/-- Claim C4: once the reaping has ended the run returns; if the release
uninstall succeeded and the lookup of the marker DaemonSet returned an error
(of any sort), the run returns nil and made no `PatchDaemonSet` call, whatever
the cleanup did. -/
theorem C4_marker_lookup_error_skips_rollback (env : Env σ) (k : K8sUninstaller σ)
    (fuel : Nat) (w w1 : World σ) (h : DeleteTestNamespace env k fuel w = some w1) :
    ∃ r w2, UninstallWithHelm env k fuel w = some (r, w2)
      ∧ ∀ c rel ns name e, Event.helmRun c rel none ∈ events w w2 →
          Event.getDaemonSet ns name (some e) ∈ events w w2 →
          r = none ∧ ∀ ev ∈ events w w2, ev.kind ≠ Kind.patchDaemonSet := by
  obtain ⟨r, w2, hrun, hcalls⟩ := UninstallWithHelm_calls env k fuel w w1 h
  refine ⟨r, w2, hrun, ?_⟩
  intro c rel ns name e _ hds
  have hds2 : Event.getDaemonSet ns name (some e) ∈ ofKind Kind.getDaemonSet (events w w2) :=
    (mem_ofKind _ _ _).2 ⟨hds, rfl⟩
  rcases hcalls with ⟨_, _, _, _, _, hg, _⟩ | ⟨_, _, ⟨_, hr, _, hp⟩ | ⟨hg, _⟩⟩
  · rw [hg] at hds2
    simp at hds2
  · refine ⟨hr, ?_⟩
    intro ev hev hk
    have : ev ∈ ofKind Kind.patchDaemonSet (events w w2) := (mem_ofKind _ _ _).2 ⟨hev, hk⟩
    rw [hp] at this
    simp at this
  · rw [hg] at hds2
    simp at hds2

/-- Witness of C4: the listing of the nodes fails and the marker DaemonSet is
absent; the run returns nil without any rollback call. -/
theorem C4_marker_lookup_error_witness :
    ∃ r w2, UninstallWithHelm (scriptedEnv noMarker awsKey)
        (scriptedUninstaller noMarker false) 0 world0 = some (r, w2)
      ∧ Event.helmRun (helmClient (scriptedUninstaller noMarker false).params)
          "cilium".toList none ∈ events world0 w2
      ∧ Event.getDaemonSet "kube-system".toList "aws-node".toList
          (some (GoError.base "not found".toList)) ∈ events world0 w2
      ∧ r = none ∧ ∀ ev ∈ events world0 w2, ev.kind ≠ Kind.patchDaemonSet := by
  obtain ⟨r, w2, hrun, himp⟩ := C4_marker_lookup_error_skips_rollback
    (scriptedEnv noMarker awsKey) (scriptedUninstaller noMarker false) 0 world0 _ rfl
  have hval : UninstallWithHelm (scriptedEnv noMarker awsKey)
      (scriptedUninstaller noMarker false) 0 world0
      = some ((UninstallWithHelm (scriptedEnv noMarker awsKey)
          (scriptedUninstaller noMarker false) 0 world0).get (by decide)) := by simp
  obtain ⟨rfl, rfl⟩ := Prod.mk.inj (Option.some.inj (hrun.symm.trans hval))
  have hc := himp (helmClient (scriptedUninstaller noMarker false).params) "cilium".toList
    "kube-system".toList "aws-node".toList (GoError.base "not found".toList)
    (by decide) (by decide)
  exact ⟨_, _, hval, by decide, by decide, hc.1, hc.2⟩

/-- Claim C5: once the reaping has ended the run returns; if the release
uninstall and the lookup of the marker DaemonSet both succeeded, the run made
exactly one `PatchDaemonSet` call and returns exactly the result of that call:
nil when the patch succeeded, its error when it failed. -/
theorem C5_rollback_result_is_returned (env : Env σ) (k : K8sUninstaller σ)
    (fuel : Nat) (w w1 : World σ) (h : DeleteTestNamespace env k fuel w = some w1) :
    ∃ r w2, UninstallWithHelm env k fuel w = some (r, w2)
      ∧ ∀ c rel ns name, Event.helmRun c rel none ∈ events w w2 →
          Event.getDaemonSet ns name none ∈ events w w2 →
          countKind Kind.patchDaemonSet (events w w2) = 1
          ∧ ofKind Kind.patchDaemonSet (events w w2)
              = [Event.patchDaemonSet env.AwsNodeDaemonSetNamespace env.AwsNodeDaemonSetName
                  (undoPatchBytes env.AwsNodeDaemonSetNodeSelectorKey) r] := by
  obtain ⟨r, w2, hrun, hcalls⟩ := UninstallWithHelm_calls env k fuel w w1 h
  refine ⟨r, w2, hrun, ?_⟩
  intro c rel ns name _ hds
  have hds2 : Event.getDaemonSet ns name none ∈ ofKind Kind.getDaemonSet (events w w2) :=
    (mem_ofKind _ _ _).2 ⟨hds, rfl⟩
  rcases hcalls with ⟨_, _, _, _, _, hg, _⟩ | ⟨_, _, ⟨_, _, hg, _⟩ | ⟨_, hp⟩⟩
  · rw [hg] at hds2
    simp at hds2
  · rw [hg] at hds2
    simp at hds2
  · refine ⟨?_, hp⟩
    have : countKind Kind.patchDaemonSet (events w w2)
        = (ofKind Kind.patchDaemonSet (events w w2)).length := by
      simp [countKind, ofKind, List.countP_eq_length_filter]
    rw [this, hp]
    rfl

/-- Witness of C5: the marker DaemonSet is found and its patch fails; the run
returns the error of the patch, after exactly one `PatchDaemonSet` call. -/
theorem C5_rollback_result_witness :
    ∃ r w2, UninstallWithHelm (scriptedEnv rollbackFails awsKey)
        (scriptedUninstaller rollbackFails false) 0 world0 = some (r, w2)
      ∧ Event.helmRun (helmClient (scriptedUninstaller rollbackFails false).params)
          "cilium".toList none ∈ events world0 w2
      ∧ Event.getDaemonSet "kube-system".toList "aws-node".toList none ∈ events world0 w2
      ∧ r = some (GoError.base "conflict".toList)
      ∧ countKind Kind.patchDaemonSet (events world0 w2) = 1
      ∧ ofKind Kind.patchDaemonSet (events world0 w2)
          = [Event.patchDaemonSet "kube-system".toList "aws-node".toList
              (undoPatchBytes awsKey) r] := by
  obtain ⟨r, w2, hrun, himp⟩ := C5_rollback_result_is_returned
    (scriptedEnv rollbackFails awsKey) (scriptedUninstaller rollbackFails false) 0 world0 _ rfl
  have hval : UninstallWithHelm (scriptedEnv rollbackFails awsKey)
      (scriptedUninstaller rollbackFails false) 0 world0
      = some ((UninstallWithHelm (scriptedEnv rollbackFails awsKey)
          (scriptedUninstaller rollbackFails false) 0 world0).get (by decide)) := by simp
  obtain ⟨rfl, rfl⟩ := Prod.mk.inj (Option.some.inj (hrun.symm.trans hval))
  have hc := himp (helmClient (scriptedUninstaller rollbackFails false).params)
    "cilium".toList "kube-system".toList "aws-node".toList (by decide) (by decide)
  exact ⟨_, _, hval, by decide, by decide, by decide, hc.1, hc.2⟩

/-! ## A run whose release uninstall succeeded, event by event -/

/-- The error the cleanup returns is the one its failing call returned,
wrapped. -/
theorem cleanup_error_of_failed_call (env : Env σ) (k : K8sUninstaller σ) (w : World σ) :
    (∀ e, Event.listNodes (Except.error e) ∈ events w (cleanupNodeAnnotations env k w).2 →
        (cleanupNodeAnnotations env k w).1
          = some (GoError.wrapf "failed to list nodes: %w" [] e))
    ∧ (∀ name b e,
        Event.patchNode name b (some e) ∈ events w (cleanupNodeAnnotations env k w).2 →
        (cleanupNodeAnnotations env k w).1
          = some (GoError.wrapf "failed to patch node %s: %w" [name] e)) := by
  cases hl : (k.client.ListNodes w.cluster).1 with
  | error err =>
    obtain ⟨hr, ht⟩ := cleanup_of_list_error env k w err hl
    rw [events_of_trace ht, hr]
    constructor
    · intro e he
      have : e = err := by simpa using he
      rw [this]
    · intro name b e he
      simp at he
  | ok nodes =>
    obtain ⟨hr, ht⟩ := cleanup_of_list_ok env k w nodes hl
    obtain ⟨evs, hte, hfail⟩ := nodeLoop_failed_patch env k nodes
      (callListNodes k (w.log "🔥 Cleaning up Cilium node annotations..." [])).2
    obtain ⟨evs2, hte2, hkinds⟩ := nodeLoop_kinds env k nodes
      (callListNodes k (w.log "🔥 Cleaning up Cilium node annotations..." [])).2
    have hsame : evs2 = evs := List.append_cancel_left (hte2.symm.trans hte)
    subst hsame
    have hev : events w (cleanupNodeAnnotations env k w).2
        = [Event.log "🔥 Cleaning up Cilium node annotations..." [],
            Event.listNodes (Except.ok nodes)] ++ evs2 :=
      events_of_trace (by rw [hr, hte, ht, List.append_assoc])
    rw [hev, hr]
    constructor
    · intro e he
      exfalso
      rcases List.mem_append.1 he with h | h
      · simp at h
      · rcases hkinds _ h with h1 | h1 <;> simp [Event.kind] at h1
    · intro name b e he
      rcases List.mem_append.1 he with h | h
      · simp at h
      · obtain ⟨_, _, _, _, _, _, hres, _⟩ := hfail name b e h
        exact hres

/-- The rollback, event by event. -/
theorem undo_exact (env : Env σ) (k : K8sUninstaller σ) (w : World σ) :
    ((undoAwsNodeNodeSelector env k w).1 = none
      ∧ (undoAwsNodeNodeSelector env k w).2.trace = w.trace ++
          [Event.log "⏪ Undoing the changes to the %q DaemonSet..."
             [LogArg.str env.AwsNodeDaemonSetName],
           Event.patchDaemonSet env.AwsNodeDaemonSetNamespace env.AwsNodeDaemonSetName
             (undoPatchBytes env.AwsNodeDaemonSetNodeSelectorKey) none])
    ∨ (∃ e, (undoAwsNodeNodeSelector env k w).1 = some e
      ∧ (undoAwsNodeNodeSelector env k w).2.trace = w.trace ++
          [Event.log "⏪ Undoing the changes to the %q DaemonSet..."
             [LogArg.str env.AwsNodeDaemonSetName],
           Event.patchDaemonSet env.AwsNodeDaemonSetNamespace env.AwsNodeDaemonSetName
             (undoPatchBytes env.AwsNodeDaemonSetNodeSelectorKey) (some e),
           Event.log
             "❌ Failed to patch the %q DaemonSet, please remove it's node selector manually"
             [LogArg.str env.AwsNodeDaemonSetName]]) := by
  cases hp : (k.client.PatchDaemonSet w.cluster env.AwsNodeDaemonSetNamespace
      env.AwsNodeDaemonSetName (undoPatchBytes env.AwsNodeDaemonSetNodeSelectorKey)).1 with
  | none =>
    left
    constructor
    · simp only [undoAwsNodeNodeSelector, callPatchDaemonSet, log_cluster, hp]
    · simp only [undoAwsNodeNodeSelector, callPatchDaemonSet, log_cluster, hp, log_trace]
      simp
  | some e =>
    right
    refine ⟨e, ?_, ?_⟩
    · simp only [undoAwsNodeNodeSelector, callPatchDaemonSet, log_cluster, hp]
    · simp only [undoAwsNodeNodeSelector, callPatchDaemonSet, log_cluster, hp, log_trace]
      simp

/-- A run whose release uninstall succeeded: its events are those up to the end
of the cleanup, then the line on the cleanup's error if it returned one, then
the lookup of the marker DaemonSet, then the rollback if the lookup
succeeded. -/
theorem UninstallWithHelm_released (env : Env σ) (k : K8sUninstaller σ) (fuel : Nat)
    (w w1 : World σ) (h : DeleteTestNamespace env k fuel w = some w1)
    (hhelm : (callHelmRun env w1 (helmClient k.params) k.params.HelmReleaseName).1 = none) :
    ∃ r w2 lg rd post, UninstallWithHelm env k fuel w = some (r, w2)
      ∧ events w w2 = events w (afterCleanup env k w1) ++ lg
          ++ [Event.getDaemonSet env.AwsNodeDaemonSetNamespace env.AwsNodeDaemonSetName rd]
          ++ post
      ∧ events w (afterCleanup env k w1) = events w w1
          ++ [Event.helmRun (helmClient k.params) k.params.HelmReleaseName none]
          ++ events (afterRelease env k w1) (afterCleanup env k w1)
      ∧ (((cleanupNodeAnnotations env k (afterRelease env k w1)).1 = none ∧ lg = [])
        ∨ (∃ err, (cleanupNodeAnnotations env k (afterRelease env k w1)).1 = some err
            ∧ lg = [Event.log "Failed to clean up node annotations: %v" [LogArg.err err]]))
      ∧ ((∃ e, rd = some e ∧ r = none ∧ post = [])
        ∨ (rd = none ∧ r = none ∧ post =
            [Event.log "⏪ Undoing the changes to the %q DaemonSet..."
               [LogArg.str env.AwsNodeDaemonSetName],
             Event.patchDaemonSet env.AwsNodeDaemonSetNamespace env.AwsNodeDaemonSetName
               (undoPatchBytes env.AwsNodeDaemonSetNodeSelectorKey) none])
        ∨ (∃ e, rd = none ∧ r = some e ∧ post =
            [Event.log "⏪ Undoing the changes to the %q DaemonSet..."
               [LogArg.str env.AwsNodeDaemonSetName],
             Event.patchDaemonSet env.AwsNodeDaemonSetNamespace env.AwsNodeDaemonSetName
               (undoPatchBytes env.AwsNodeDaemonSetNodeSelectorKey) (some e),
             Event.log
               "❌ Failed to patch the %q DaemonSet, please remove it's node selector manually"
               [LogArg.str env.AwsNodeDaemonSetName]])) := by
  obtain ⟨reap, hreap, _⟩ := DeleteTestNamespace_kinds env k fuel w w1 h
  rcases hh : callHelmRun env w1 (helmClient k.params) k.params.HelmReleaseName with ⟨rh, wh⟩
  rw [hh] at hhelm
  simp only at hhelm
  subst hhelm
  have hth := callHelmRun_eq env w1 wh _ _ none hh
  have hwh : afterRelease env k w1 = wh := by simp only [afterRelease, hh]
  obtain ⟨cl, htc, _⟩ := cleanup_events env k wh
  have hwc : afterCleanup env k w1 = (cleanupNodeAnnotations env k wh).2 := by
    simp only [afterCleanup, hwh]
  rw [hwh, hwc]
  have hlog : ∃ wl lg,
      (match cleanupNodeAnnotations env k wh with
        | (some err, w) => w.log "Failed to clean up node annotations: %v" [LogArg.err err]
        | (none, w) => w) = wl
      ∧ wl.trace = (cleanupNodeAnnotations env k wh).2.trace ++ lg
      ∧ (((cleanupNodeAnnotations env k wh).1 = none ∧ lg = [])
        ∨ (∃ err, (cleanupNodeAnnotations env k wh).1 = some err ∧ lg =
            [Event.log "Failed to clean up node annotations: %v" [LogArg.err err]])) := by
    rcases hc : cleanupNodeAnnotations env k wh with ⟨rc, wc⟩
    cases rc with
    | none => exact ⟨wc, [], rfl, by simp, Or.inl ⟨rfl, rfl⟩⟩
    | some err =>
      exact ⟨_, [Event.log "Failed to clean up node annotations: %v" [LogArg.err err]],
        rfl, by simp only [log_trace], Or.inr ⟨err, rfl, rfl⟩⟩
  obtain ⟨wl, lg, hwl, htl, hlg⟩ := hlog
  have e1 : events w (cleanupNodeAnnotations env k wh).2
      = reap ++ [Event.helmRun (helmClient k.params) k.params.HelmReleaseName none] ++ cl :=
    events_of_trace (by rw [htc, hth, hreap]; simp)
  have e2 : events w w1 = reap := events_of_trace hreap
  have e3 : events wh (cleanupNodeAnnotations env k wh).2 = cl := events_of_trace htc
  rcases hd : callGetDaemonSet k wl env.AwsNodeDaemonSetNamespace env.AwsNodeDaemonSetName
    with ⟨rd, wd⟩
  have htd := callGetDaemonSet_eq k wl wd _ _ rd hd
  cases rd with
  | some e =>
    refine ⟨none, wd, lg, some e, [], ?_, ?_, by rw [e1, e2, e3], hlg,
      Or.inl ⟨e, rfl, rfl, rfl⟩⟩
    · simp only [UninstallWithHelm, h, hh, hwl, hd]
    · rw [e1]
      exact events_of_trace (by rw [htd, htl, htc, hth, hreap]; simp)
  | none =>
    have hrunU : UninstallWithHelm env k fuel w = some (undoAwsNodeNodeSelector env k wd) := by
      simp only [UninstallWithHelm, h, hh, hwl, hd]
    rcases undo_exact env k wd with ⟨hr, htu⟩ | ⟨e, hr, htu⟩
    · refine ⟨none, (undoAwsNodeNodeSelector env k wd).2, lg, none, _, ?_, ?_,
        by rw [e1, e2, e3], hlg, Or.inr (Or.inl ⟨rfl, rfl, rfl⟩)⟩
      · rw [hrunU, ← hr]
      · rw [e1]
        exact events_of_trace (by rw [htu, htd, htl, htc, hth, hreap]; simp)
    · refine ⟨some e, (undoAwsNodeNodeSelector env k wd).2, lg, none, _, ?_, ?_,
        by rw [e1, e2, e3], hlg, Or.inr (Or.inr ⟨e, rfl, rfl, rfl⟩)⟩
      · rw [hrunU, ← hr]
      · rw [e1]
        exact events_of_trace (by rw [htu, htd, htl, htc, hth, hreap]; simp)

/-- Counterexample to claim C6: the listing of the nodes fails after a
successful release uninstall, the marker DaemonSet is found and its patch
fails; the run returns the error of the patch, not nil. -/
theorem C6_cleanup_failure_counterexample :
    ∃ r w2, UninstallWithHelm (scriptedEnv cleanupAndRollbackFail awsKey)
        (scriptedUninstaller cleanupAndRollbackFail false) 0 world0 = some (r, w2)
      ∧ Event.helmRun (helmClient (scriptedUninstaller cleanupAndRollbackFail false).params)
          "cilium".toList none ∈ events world0 w2
      ∧ Event.listNodes (Except.error (GoError.base "forbidden".toList)) ∈ events world0 w2
      ∧ r = some (GoError.base "conflict".toList) ∧ r ≠ none :=
  ⟨((UninstallWithHelm (scriptedEnv cleanupAndRollbackFail awsKey)
      (scriptedUninstaller cleanupAndRollbackFail false) 0 world0).get (by decide)).1,
   ((UninstallWithHelm (scriptedEnv cleanupAndRollbackFail awsKey)
      (scriptedUninstaller cleanupAndRollbackFail false) 0 world0).get (by decide)).2,
   by simp, by decide, by decide, by decide, by decide⟩

/-- Claim C6, amended: once the reaping has ended the run returns; if the
release uninstall succeeded and the cleanup failed (the listing or a patch
returned an error), the failing call is one of the cleanup's own, the cleanup
returned that call's error wrapped, and the events of the run are: those up to
the end of the cleanup, then the log line carrying the cleanup's error, then
the lookup of the marker DaemonSet (its namespace and name), then either
nothing more, the lookup having failed and the result being nil, or the
rollback with its one `PatchDaemonSet` call, whose result (nil, or the error of
the patch) is the result of the run. -/
theorem C6_cleanup_failure_is_only_logged (env : Env σ) (k : K8sUninstaller σ)
    (fuel : Nat) (w w1 : World σ) (h : DeleteTestNamespace env k fuel w = some w1) :
    ∃ r w2, UninstallWithHelm env k fuel w = some (r, w2)
      ∧ ∀ c rel, Event.helmRun c rel none ∈ events w w2 →
          ((∃ e, Event.listNodes (Except.error e) ∈ events w w2)
            ∨ (∃ name b e, Event.patchNode name b (some e) ∈ events w w2)) →
          ∃ err rd post,
            (cleanupNodeAnnotations env k (afterRelease env k w1)).1 = some err
            ∧ (∀ e, Event.listNodes (Except.error e) ∈ events w w2 →
                Event.listNodes (Except.error e)
                  ∈ events (afterRelease env k w1) (afterCleanup env k w1)
                ∧ err = GoError.wrapf "failed to list nodes: %w" [] e)
            ∧ (∀ name b e, Event.patchNode name b (some e) ∈ events w w2 →
                Event.patchNode name b (some e)
                  ∈ events (afterRelease env k w1) (afterCleanup env k w1)
                ∧ err = GoError.wrapf "failed to patch node %s: %w" [name] e)
            ∧ events w (afterCleanup env k w1) = events w w1
                ++ [Event.helmRun (helmClient k.params) k.params.HelmReleaseName none]
                ++ events (afterRelease env k w1) (afterCleanup env k w1)
            ∧ events w w2 = events w (afterCleanup env k w1)
                ++ [Event.log "Failed to clean up node annotations: %v" [LogArg.err err],
                    Event.getDaemonSet env.AwsNodeDaemonSetNamespace
                      env.AwsNodeDaemonSetName rd]
                ++ post
            ∧ ((∃ e, rd = some e ∧ r = none ∧ post = [])
              ∨ (rd = none ∧ r = none ∧ post =
                  [Event.log "⏪ Undoing the changes to the %q DaemonSet..."
                     [LogArg.str env.AwsNodeDaemonSetName],
                   Event.patchDaemonSet env.AwsNodeDaemonSetNamespace
                     env.AwsNodeDaemonSetName
                     (undoPatchBytes env.AwsNodeDaemonSetNodeSelectorKey) none])
              ∨ (∃ e, rd = none ∧ r = some e ∧ post =
                  [Event.log "⏪ Undoing the changes to the %q DaemonSet..."
                     [LogArg.str env.AwsNodeDaemonSetName],
                   Event.patchDaemonSet env.AwsNodeDaemonSetNamespace
                     env.AwsNodeDaemonSetName
                     (undoPatchBytes env.AwsNodeDaemonSetNodeSelectorKey) (some e),
                   Event.log
                     "❌ Failed to patch the %q DaemonSet, please remove it's node selector manually"
                     [LogArg.str env.AwsNodeDaemonSetName]])) := by
  obtain ⟨reap, hreap, hrk⟩ := DeleteTestNamespace_kinds env k fuel w w1 h
  have e2 : events w w1 = reap := events_of_trace hreap
  cases hh1 : (callHelmRun env w1 (helmClient k.params) k.params.HelmReleaseName).1 with
  | some e0 =>
    rcases hh : callHelmRun env w1 (helmClient k.params) k.params.HelmReleaseName
      with ⟨rh, wh⟩
    rw [hh] at hh1
    simp only at hh1
    subst hh1
    have hth := callHelmRun_eq env w1 wh _ _ (some e0) hh
    refine ⟨some e0, wh, by simp only [UninstallWithHelm, h, hh], ?_⟩
    intro c rel hmem _
    exfalso
    rw [events_of_trace (show wh.trace = w.trace ++ (reap ++
      [Event.helmRun (helmClient k.params) k.params.HelmReleaseName (some e0)]) by
        rw [hth, hreap, List.append_assoc])] at hmem
    rcases List.mem_append.1 hmem with hx | hx
    · have := hrk _ hx
      simp [Event.kind] at this
    · simp at hx
  | none =>
    obtain ⟨r, w2, lg, rd, post, hrun, hev, hev2, hlg, hpost⟩ :=
      UninstallWithHelm_released env k fuel w w1 h hh1
    refine ⟨r, w2, hrun, ?_⟩
    intro c rel _ hfail
    have hpostk : ∀ ev ∈ post, ev.kind = Kind.log ∨ ev.kind = Kind.patchDaemonSet := by
      intro ev hm
      rcases hpost with ⟨_, _, _, rfl⟩ | ⟨_, _, rfl⟩ | ⟨_, _, _, rfl⟩
      · simp at hm
      · simp only [List.mem_cons, List.mem_singleton, List.not_mem_nil, or_false] at hm
        rcases hm with rfl | rfl <;> simp [Event.kind]
      · simp only [List.mem_cons, List.mem_singleton, List.not_mem_nil, or_false] at hm
        rcases hm with rfl | rfl | rfl <;> simp [Event.kind]
    have hlgk : ∀ ev ∈ lg, ev.kind = Kind.log := by
      intro ev hm
      rcases hlg with ⟨_, rfl⟩ | ⟨err, _, rfl⟩
      · simp at hm
      · simp only [List.mem_singleton] at hm
        subst hm
        rfl
    have hin : ∀ ev : Event, ev ∈ events w w2 →
        (ev.kind = Kind.listNodes ∨ ev.kind = Kind.patchNode) →
        ev ∈ events (afterRelease env k w1) (afterCleanup env k w1) := by
      intro ev hmem hkind
      rw [hev, hev2, e2] at hmem
      simp only [List.mem_append, List.mem_singleton] at hmem
      rcases hmem with ((((hm | hm) | hm) | hm) | hm) | hm
      · have := hrk ev hm
        rcases hkind with h1 | h1 <;> simp [h1] at this
      · subst hm
        rcases hkind with h1 | h1 <;> simp [Event.kind] at h1
      · exact hm
      · have := hlgk ev hm
        rcases hkind with h1 | h1 <;> simp [h1] at this
      · subst hm
        rcases hkind with h1 | h1 <;> simp [Event.kind] at h1
      · rcases hpostk ev hm with h2 | h2 <;> rcases hkind with h1 | h1 <;> simp [h1] at h2
    obtain ⟨hlist, hpatch⟩ := cleanup_error_of_failed_call env k (afterRelease env k w1)
    have hsome : ∃ err, (cleanupNodeAnnotations env k (afterRelease env k w1)).1 = some err := by
      rcases hfail with ⟨e, he⟩ | ⟨name, b, e, he⟩
      · exact ⟨_, hlist e (hin _ he (Or.inl rfl))⟩
      · exact ⟨_, hpatch name b e (hin _ he (Or.inr rfl))⟩
    obtain ⟨err, herr⟩ := hsome
    have hlgeq : lg = [Event.log "Failed to clean up node annotations: %v" [LogArg.err err]] := by
      rcases hlg with ⟨hnone, _⟩ | ⟨err2, herr2, hl⟩
      · rw [hnone] at herr
        cases herr
      · rw [herr2] at herr
        cases herr
        exact hl
    refine ⟨err, rd, post, herr, ?_, ?_, hev2, ?_, hpost⟩
    · intro e he
      have hm := hin _ he (Or.inl rfl)
      have := hlist e hm
      rw [herr] at this
      exact ⟨hm, Option.some.inj this⟩
    · intro name b e he
      have hm := hin _ he (Or.inr rfl)
      have := hpatch name b e hm
      rw [herr] at this
      exact ⟨hm, Option.some.inj this⟩
    · rw [hev, hlgeq]
      simp

/-- Witness of C6: the listing of the nodes fails and the marker DaemonSet is
absent; the error of the listing, wrapped, is logged after the cleanup, the
lookup follows and the run returns nil. -/
theorem C6_cleanup_failure_witness :
    ∃ r w2, UninstallWithHelm (scriptedEnv noMarker awsKey)
        (scriptedUninstaller noMarker false) 0 world0 = some (r, w2)
      ∧ Event.helmRun (helmClient (scriptedUninstaller noMarker false).params)
          "cilium".toList none ∈ events world0 w2
      ∧ Event.listNodes (Except.error (GoError.base "forbidden".toList)) ∈ events world0 w2
      ∧ r = none
      ∧ (events world0 w2).drop 5
          = [Event.log "🔥 Cleaning up Cilium node annotations..." [],
             Event.listNodes (Except.error (GoError.base "forbidden".toList)),
             Event.log "Failed to clean up node annotations: %v"
               [LogArg.err (GoError.wrapf "failed to list nodes: %w" []
                 (GoError.base "forbidden".toList))],
             Event.getDaemonSet "kube-system".toList "aws-node".toList
               (some (GoError.base "not found".toList))]
      ∧ (cleanupNodeAnnotations (scriptedEnv noMarker awsKey)
          (scriptedUninstaller noMarker false)
          (afterRelease (scriptedEnv noMarker awsKey) (scriptedUninstaller noMarker false)
            ((DeleteTestNamespace (scriptedEnv noMarker awsKey)
              (scriptedUninstaller noMarker false) 0 world0).get (by decide)))).1
          = some (GoError.wrapf "failed to list nodes: %w" []
              (GoError.base "forbidden".toList)) := by
  obtain ⟨r, w2, hrun, himp⟩ := C6_cleanup_failure_is_only_logged
    (scriptedEnv noMarker awsKey) (scriptedUninstaller noMarker false) 0 world0
    ((DeleteTestNamespace (scriptedEnv noMarker awsKey)
      (scriptedUninstaller noMarker false) 0 world0).get (by decide)) (by simp)
  have hval : UninstallWithHelm (scriptedEnv noMarker awsKey)
      (scriptedUninstaller noMarker false) 0 world0
      = some ((UninstallWithHelm (scriptedEnv noMarker awsKey)
          (scriptedUninstaller noMarker false) 0 world0).get (by decide)) := by simp
  obtain ⟨rfl, rfl⟩ := Prod.mk.inj (Option.some.inj (hrun.symm.trans hval))
  obtain ⟨err, rd, post, herr, hl, _⟩ :=
    himp (helmClient (scriptedUninstaller noMarker false).params) "cilium".toList
      (by decide) (Or.inl ⟨GoError.base "forbidden".toList, by decide⟩)
  have herr2 := (hl (GoError.base "forbidden".toList) (by decide)).2
  rw [herr2] at herr
  exact ⟨_, _, hval, by decide, by decide, by decide, by decide, herr⟩

/-! ## The payload of the rollback -/

theorem slashOnly_length_le (key : GoString) :
    (ReplaceAll key "/".toList "~1".toList).length ≤ (encodeKey key).length
    ∧ ('~' ∈ key → (ReplaceAll key "/".toList "~1".toList).length < (encodeKey key).length) := by
  have h2 : "/".toList = ['/'] := rfl
  have h4 : "~1".toList = ['~', '1'] := rfl
  rw [h2, h4, ReplaceAll_single]
  induction key with
  | nil => simp [encodeKey]
  | cons c cs ih =>
    rw [encodeKey_cons, List.flatMap_cons, List.length_append, List.length_append]
    by_cases hc1 : c = '~'
    · subst hc1
      have h1 : ¬ ('~' = '/') := by decide
      simp only [encodeChar, h1, if_false, if_true, List.length_cons, List.length_nil]
      constructor
      · omega
      · intro _; omega
    · by_cases hc2 : c = '/'
      · subst hc2
        simp only [encodeChar, hc1, if_false, if_true, List.length_cons, List.length_nil]
        constructor
        · omega
        · intro hm
          have : '~' ∈ cs := by
            rcases List.mem_cons.1 hm with e | e
            · exact absurd e.symm hc1
            · exact e
          have := ih.2 this
          omega
      · simp only [encodeChar, hc1, hc2, if_false, List.length_cons, List.length_nil]
        constructor
        · omega
        · intro hm
          have : '~' ∈ cs := by
            rcases List.mem_cons.1 hm with e | e
            · exact absurd e.symm hc1
            · exact e
          have := ih.2 this
          omega

/-- Replacing `/` alone gives the cleaner's escaping exactly on the keys
without `~`. -/
theorem slashOnly_eq_escapeKey_iff (key : GoString) :
    ReplaceAll key "/".toList "~1".toList = escapeKey key ↔ '~' ∉ key := by
  constructor
  · intro h hm
    have := (slashOnly_length_le key).2 hm
    rw [h, escapeKey_eq_encodeKey] at this
    exact lt_irrefl _ this
  · intro hm
    have h1 : "~".toList = ['~'] := rfl
    have hid : ReplaceAll key "~".toList "~0".toList = key := by
      rw [h1, ReplaceAll_single]
      clear h1
      induction key with
      | nil => rfl
      | cons c cs ih =>
        have hc : c ≠ '~' := fun e => hm (by simp [e])
        have hcs : '~' ∉ cs := fun e => hm (List.mem_cons_of_mem _ e)
        rw [List.flatMap_cons, ih hcs]
        simp [hc]
    unfold escapeKey
    rw [hid]

/-- The characters of an encoded key are those of the key, `~`, `0` and `1`. -/
theorem mem_encodeKey (key : GoString) (c : Char) (h : c ∈ encodeKey key) :
    c ∈ key ∨ c = '~' ∨ c = '0' ∨ c = '1' := by
  induction key with
  | nil => simp [encodeKey] at h
  | cons x xs ih =>
    rw [encodeKey_cons] at h
    rcases List.mem_append.1 h with h1 | h1
    · unfold encodeChar at h1
      split_ifs at h1
      · simp at h1
        rcases h1 with rfl | rfl <;> simp
      · simp at h1
        rcases h1 with rfl | rfl <;> simp
      · simp at h1
        exact Or.inl (by simp [h1])
    · rcases ih h1 with h2 | h2
      · exact Or.inl (List.mem_cons_of_mem _ h2)
      · exact Or.inr h2

theorem flatMap_jsonEscape_plain (s : GoString) (h : ∀ c ∈ s, jsonEscape c = [c]) :
    s.flatMap jsonEscape = s := by
  induction s with
  | nil => rfl
  | cons c cs ih =>
    rw [List.flatMap_cons, h c (List.mem_cons_self _ _),
      ih (fun x hx => h x (List.mem_cons_of_mem _ hx))]
    rfl

/-- The bytes of line 143 are the JSON text of the one-operation document when
the segment put in place of `%s` needs no JSON escaping. -/
theorem jsonRemoveDocument_plain (seg : GoString) (h : ∀ c ∈ seg, jsonEscape c = [c]) :
    jsonRemoveDocument ("/spec/template/spec/nodeSelector/".toList ++ seg)
      = "[\x7b\"op\":\"remove\",\"path\":\"/spec/template/spec/nodeSelector/".toList
          ++ seg ++ "\"\x7d]".toList := by
  have hq : "/spec/template/spec/nodeSelector/".toList.flatMap jsonEscape
      = "/spec/template/spec/nodeSelector/".toList := by decide
  have hhead : "[\x7b".toList ++ jsonString "op".toList ++ ":".toList
      ++ jsonString "remove".toList ++ ",".toList ++ jsonString "path".toList ++ ":".toList
      ++ (Char.ofNat 34 :: "/spec/template/spec/nodeSelector/".toList)
      = "[\x7b\"op\":\"remove\",\"path\":\"/spec/template/spec/nodeSelector/".toList := by
    decide
  have htail : [Char.ofNat 34] ++ "\x7d]".toList = "\"\x7d]".toList := by decide
  have hjs : jsonString ("/spec/template/spec/nodeSelector/".toList ++ seg)
      = Char.ofNat 34 :: ("/spec/template/spec/nodeSelector/".toList ++ seg)
          ++ [Char.ofNat 34] := by
    unfold jsonString
    rw [List.flatMap_append, hq, flatMap_jsonEscape_plain seg h]
  rw [← hhead, ← htail]
  unfold jsonRemoveDocument
  rw [hjs]
  simp only [List.append_assoc, List.cons_append, List.nil_append]

/-- Claim C8: the rollback sends one `PatchDaemonSet` call. For a node-selector
key that holds no `~` (such is `io.cilium/aws-node-enabled`, the key named on
line 135) its payload is the remove operation of the path
`/spec/template/spec/nodeSelector/` followed by the key escaped by the rule of
the annotation cleaner, `~` to `~0` first and then `/` to `~1`; and when no
character of the key needs escaping in a JSON string, these bytes are the JSON
text of the document made of that single remove operation. -/
theorem C8_rollback_payload (env : Env σ) (k : K8sUninstaller σ) (w : World σ)
    (hkey : '~' ∉ env.AwsNodeDaemonSetNodeSelectorKey) :
    ofKind Kind.patchDaemonSet (events w (undoAwsNodeNodeSelector env k w).2)
      = [Event.patchDaemonSet env.AwsNodeDaemonSetNamespace env.AwsNodeDaemonSetName
          ("[\x7b\"op\":\"remove\",\"path\":\"/spec/template/spec/nodeSelector/".toList
            ++ escapeKey env.AwsNodeDaemonSetNodeSelectorKey ++ "\"\x7d]".toList)
          (undoAwsNodeNodeSelector env k w).1]
    ∧ escapeKey env.AwsNodeDaemonSetNodeSelectorKey
        = ReplaceAll (ReplaceAll env.AwsNodeDaemonSetNodeSelectorKey "~".toList "~0".toList)
            "/".toList "~1".toList
    ∧ ((∀ c ∈ env.AwsNodeDaemonSetNodeSelectorKey, jsonEscape c = [c]) →
        "[\x7b\"op\":\"remove\",\"path\":\"/spec/template/spec/nodeSelector/".toList
            ++ escapeKey env.AwsNodeDaemonSetNodeSelectorKey ++ "\"\x7d]".toList
          = jsonRemoveDocument ("/spec/template/spec/nodeSelector/".toList
              ++ escapeKey env.AwsNodeDaemonSetNodeSelectorKey)) := by
  refine ⟨?_, rfl, ?_⟩
  · obtain ⟨res, tail, hres, _, htr, hkt⟩ := undo_events env k w
    rw [List.append_assoc] at htr
    rw [events_of_trace htr, ofKind_append, ofKind_eq_nil _ tail
      (fun ev hev hk => by rw [hkt ev hev] at hk; cases hk), hres,
      ← (slashOnly_eq_escapeKey_iff _).2 hkey]
    simp [ofKind, Event.kind, undoPatchBytes]
  · intro hplain
    symm
    apply jsonRemoveDocument_plain
    intro c hc
    rw [escapeKey_eq_encodeKey] at hc
    rcases mem_encodeKey _ c hc with h1 | rfl | rfl | rfl
    · exact hplain c h1
    · decide
    · decide
    · decide

/-- Witness of C8: with the key `io.cilium/aws-node-enabled` the payload is the
JSON text of the single remove operation of the path
`/spec/template/spec/nodeSelector/io.cilium~1aws-node-enabled`. -/
theorem C8_rollback_payload_witness :
    '~' ∉ (scriptedEnv allOk awsKey).AwsNodeDaemonSetNodeSelectorKey
    ∧ (∀ c ∈ (scriptedEnv allOk awsKey).AwsNodeDaemonSetNodeSelectorKey, jsonEscape c = [c])
    ∧ escapeKey awsKey = "io.cilium~1aws-node-enabled".toList
    ∧ ofKind Kind.patchDaemonSet (events world0
        (undoAwsNodeNodeSelector (scriptedEnv allOk awsKey)
          (scriptedUninstaller allOk false) world0).2)
      = [Event.patchDaemonSet "kube-system".toList "aws-node".toList
          (jsonRemoveDocument
            "/spec/template/spec/nodeSelector/io.cilium~1aws-node-enabled".toList)
          none]
    ∧ jsonRemoveDocument "/spec/template/spec/nodeSelector/io.cilium~1aws-node-enabled".toList
      = "[\x7b\"op\":\"remove\",\"path\":\"/spec/template/spec/nodeSelector/io.cilium~1aws-node-enabled\"\x7d]".toList := by
  have hk : '~' ∉ (scriptedEnv allOk awsKey).AwsNodeDaemonSetNodeSelectorKey := by decide
  have hp : ∀ c ∈ (scriptedEnv allOk awsKey).AwsNodeDaemonSetNodeSelectorKey,
      jsonEscape c = [c] := by decide
  obtain ⟨h1, _, h3⟩ := C8_rollback_payload (scriptedEnv allOk awsKey)
    (scriptedUninstaller allOk false) world0 hk
  refine ⟨hk, hp, by decide, ?_, by decide⟩
  rw [h1, h3 hp]
  decide

end Uninstall
